import Mathlib

/-!
Verification of the XGMML rebuilder (`rebuild.py`, duplicated inline in
`client.py`).  The Python string primitives used by the source
(`str.strip`, `str.split` with a one-character separator, `readlines`,
`str.replace` with a one-character pattern and empty replacement,
`str.upper`, dict insertion with insertion-order iteration, `re.findall`
and `re.search` for the two fixed patterns) are embedded as executable
functions on `List Char` / `String`, and the four parsing/synthesis
functions plus the composer `rebuild_xgmml` are translated on top of
them.  File I/O is modelled by passing file contents in and returning
the written content (or the raised `ValueError` message) as
`Except String String`.
-/

/-- The six ASCII whitespace characters stripped by Python `str.strip()`. -/
def isPyWhitespace (c : Char) : Bool :=
  c = ' ' || c = '\t' || c = '\n' || c = '\r' || c = '\x0b' || c = '\x0c'

/-- Python `str.strip()` on a character list: drop whitespace from both ends. -/
def stripList (cs : List Char) : List Char :=
  ((cs.dropWhile isPyWhitespace).reverse.dropWhile isPyWhitespace).reverse

/-- Python `str.strip()`. -/
def pyStrip (s : String) : String :=
  String.mk (stripList s.data)

/-- Python `str.split(sep)` for a one-character separator, on lists:
`"a,,b".split(",") == ["a", "", "b"]`, `"".split(",") == [""]`. -/
def splitOnCharAux (sep : Char) : List Char → List (List Char)
  | [] => [[]]
  | c :: rest =>
    if c = sep then [] :: splitOnCharAux sep rest
    else
      match splitOnCharAux sep rest with
      | [] => [[c]]
      | p :: ps => (c :: p) :: ps

/-- Python `str.split(sep)` for a one-character separator. -/
def pySplitChar (sep : Char) (s : String) : List String :=
  (splitOnCharAux sep s.data).map String.mk

/-- Python `file.readlines()` on the file's text: split after every
newline, keeping the newline at the end of each line; a final segment
without a trailing newline is kept, an empty final segment is not. -/
def readlinesAux : List Char → List (List Char)
  | [] => []
  | c :: rest =>
    if c = '\n' then ['\n'] :: readlinesAux rest
    else
      match readlinesAux rest with
      | [] => [[c]]
      | l :: ls => (c :: l) :: ls

/-- Python `file.readlines()` of a file with the given text content. -/
def pyReadlines (s : String) : List String :=
  (readlinesAux s.data).map String.mk

/-- Python `str.replace(p, "")` for a one-character pattern `p`: removing
every (necessarily non-overlapping) occurrence of a single character is
exactly filtering that character out. -/
def pyReplaceChar (p : Char) (s : String) : String :=
  String.mk (s.data.filter (fun c => c ≠ p))

/-- Python `str.upper()` (its ASCII behaviour, which is all the source's
identifiers exercise): uppercase every character. -/
def pyUpper (s : String) : String :=
  String.toUpper s

/-- Python `d[k] = v` on a `dict` modelled as an association list in
insertion order: an existing key keeps its position and gets the new
value, a new key is appended at the end. -/
def dictInsert (d : List (String × String)) (k v : String) : List (String × String) :=
  if d.any (fun p => p.1 = k) then
    d.map (fun p => if p.1 = k then (k, v) else p)
  else d ++ [(k, v)]

/-- Python `d.get(k)` / `d[k]` on the association-list dict model. -/
def dictLookup (d : List (String × String)) (k : String) : Option String :=
  (d.find? (fun p => p.1 = k)).map Prod.snd

/-- The per-record computation inside `parse_fasta`'s loop
(rebuild.py lines 21-26): `lines = entry.strip().split('\n')`,
`header = lines[0].strip()`,
`sequence = ''.join(lines[1:]).replace('\n', '').replace(' ', '')`. -/
def fastaRecord (entry : String) : String × String :=
  let lines := pySplitChar '\n' (pyStrip entry)
  (pyStrip (lines.headD ""),
   pyReplaceChar ' ' (pyReplaceChar '\n' (String.join (lines.drop 1))))

/-- One iteration of `parse_fasta`'s loop body (rebuild.py lines 21-26):
the `if lines:` guard mirrors the source's truthiness test on the split
result (which, splitting always yielding at least one piece, never
skips). -/
def fastaStep (seqs : List (String × String)) (entry : String) : List (String × String) :=
  if pySplitChar '\n' (pyStrip entry) ≠ [] then
    dictInsert seqs (fastaRecord entry).1 (fastaRecord entry).2
  else seqs

/-- `parse_fasta` (rebuild.py lines 11-28): split the content on `>`,
drop everything before the first marker, and store each record's header
and sequence in the dict. -/
def parse_fasta (content : String) : List (String × String) :=
  ((pySplitChar '>' content).drop 1).foldl fastaStep []

/-- One iteration of `parse_metadata_tab`'s loop body (rebuild.py lines
38-47): split the stripped line on tabs and record `parts[0] ↦ parts[2]`
for rows with at least three fields whose second field is exactly
`"Description"`. -/
def metadataStep (descs : List (String × String)) (line : String) : List (String × String) :=
  if 3 ≤ (pySplitChar '\t' (pyStrip line)).length then
    if (pySplitChar '\t' (pyStrip line)).getD 1 "" = "Description" then
      dictInsert descs ((pySplitChar '\t' (pyStrip line)).getD 0 "")
        ((pySplitChar '\t' (pyStrip line)).getD 2 "")
    else descs
  else descs

/-- `parse_metadata_tab` (rebuild.py lines 30-49): skip the header line
unconditionally, then process every remaining line. -/
def parse_metadata_tab (content : String) : List (String × String) :=
  ((pyReadlines content).drop 1).foldl metadataStep []

/-- The value a single metadata line contributes for identifier `id`,
written the way the specification describes it: the line's stripped text
is split on tabs, and the row yields its third field exactly when it has
at least three fields, its attribute-name field is exactly
`"Description"`, and its identifier field is `id`. -/
def descRow (id line : String) : Option String :=
  if 3 ≤ (pySplitChar '\t' (pyStrip line)).length ∧
      (pySplitChar '\t' (pyStrip line)).getD 1 "" = "Description" ∧
      (pySplitChar '\t' (pyStrip line)).getD 0 "" = id then
    some ((pySplitChar '\t' (pyStrip line)).getD 2 "")
  else none

/-- The literal `<edge` anchoring both extraction patterns. -/
def litEdge : List Char := ['<', 'e', 'd', 'g', 'e']

/-- The literal `source="` of the pattern `<edge[^>]*source="([^"]*)"`. -/
def litSource : List Char := ['s', 'o', 'u', 'r', 'c', 'e', '=', '"']

/-- The literal `target="` of the pattern `<edge[^>]*target="([^"]*)"`. -/
def litTarget : List Char := ['t', 'a', 'r', 'g', 'e', 't', '=', '"']

/-- The capture group `([^"]*)"`: greedily take characters up to the next
double quote, which must exist for the match to succeed; returns the
capture and the text after the closing quote. -/
def tryCapture (cs : List Char) : Option (List Char × List Char) :=
  match cs.dropWhile (fun c => c ≠ '"') with
  | [] => none
  | _ :: rest => some (cs.takeWhile (fun c => c ≠ '"'), rest)

/-- One backtracking attempt of the regex engine: match the attribute
literal at offset `j` after `<edge`, then the capture group. -/
def attemptAt (lit cs : List Char) (j : Nat) : Option (List Char × List Char) :=
  if lit.isPrefixOf (cs.drop j) then tryCapture ((cs.drop j).drop lit.length)
  else none

/-- The greedy `[^>]*` with backtracking: try the attribute literal at
offsets `k, k-1, …, 0` and return the first (i.e. rightmost) success. -/
def matchInner (lit cs : List Char) : Nat → Option (List Char × List Char)
  | 0 => attemptAt lit cs 0
  | k + 1 =>
    match attemptAt lit cs (k + 1) with
    | some r => some r
    | none => matchInner lit cs k

/-- Match `<edge[^>]*lit([^"]*)"` at the head of `cs`: `[^>]*` can reach
at most to the first `>`, and the engine backtracks from that greedy
maximum. -/
def matchEdgeAttr (lit cs : List Char) : Option (List Char × List Char) :=
  if litEdge.isPrefixOf cs then
    matchInner lit (cs.drop 5) ((cs.drop 5).takeWhile (fun c => c ≠ '>')).length
  else none

/-- `re.findall` scanning for `<edge[^>]*lit([^"]*)"`: attempt a match at
every position left to right; on success emit the capture and resume
after the match (non-overlapping), otherwise advance one character.
Fuel is the remaining text length (each step consumes at least one
character, see `matchEdgeAttr_length_lt`). -/
def findEdgeAttrAux (lit : List Char) : Nat → List Char → List (List Char)
  | 0, _ => []
  | _ + 1, [] => []
  | fuel + 1, c :: rest =>
    match matchEdgeAttr lit (c :: rest) with
    | some (cap, after) => cap :: findEdgeAttrAux lit fuel after
    | none => findEdgeAttrAux lit fuel rest

/-- `re.findall(pattern, content)` for `<edge[^>]*lit([^"]*)"`. -/
def reFindAll (lit cs : List Char) : List (List Char) :=
  findEdgeAttrAux lit cs.length cs

/-- `extract_node_ids_from_xgmml` (rebuild.py lines 51-69): all
`source="…"`/`target="…"` captures of the two edge patterns, united into
a set.  The Python `set` is modelled as the deduplicated list of the
collected values (only membership is observable: the composer sorts the
set before use). -/
def extract_node_ids_from_xgmml (content : String) : List String :=
  let sources := (reFindAll litSource content.data).map String.mk
  let targets := (reFindAll litTarget content.data).map String.mk
  (sources ++ targets).dedup

/-- The case-insensitive first-match loop of `create_node_xml`
(rebuild.py lines 77-81 and 85-88): scan the dict in insertion order and
stop at the first key whose uppercase form equals the target's. -/
def findCaseInsensitive (node_id : String) : List (String × String) → Option (String × String)
  | [] => none
  | p :: rest =>
    if pyUpper p.1 = pyUpper node_id then some p else findCaseInsensitive node_id rest

/-- `create_node_xml` (rebuild.py lines 71-103): resolve sequence and
description case-insensitively and emit the node element text with the
source's exact formatting. -/
def create_node_xml (node_id : String) (sequences descriptions : List (String × String)) : String :=
  let seqMatch := findCaseInsensitive node_id sequences
  let sequence := match seqMatch with | some p => p.2 | none => ""
  let seq_length := match seqMatch with | some p => p.2.length | none => 0
  let description := match findCaseInsensitive node_id descriptions with
    | some p => p.2
    | none => "Unknown"
  "  <node id=\"" ++ node_id ++ "\" label=\"" ++ node_id ++ "\">\n" ++
  "    <att name=\"Sequence Source\" type=\"string\" value=\"USER\" />\n" ++
  "    <att name=\"Sequence Length\" type=\"integer\" value=\"" ++ toString seq_length ++ "\" />\n" ++
  "    <att type=\"list\" name=\"Other IDs\">\n" ++
  "      <att type=\"string\" name=\"Other IDs\" value=\"None\" />\n" ++
  "    </att>\n" ++
  "    <att name=\"Sequence\" type=\"string\" value=\"" ++ sequence ++ "\" />\n" ++
  "    <att type=\"list\" name=\"Description\">\n" ++
  "      <att type=\"string\" name=\"Description\" value=\"" ++ description ++ "\" />\n" ++
  "    </att>\n" ++
  "  </node>"

/-- `re.search(r'(<lit[^>]*>)', content)`: the start index (in
characters) of the leftmost position where the literal matches and a
`>` follows somewhere after it. -/
def searchTagAux (lit : List Char) : List Char → Nat → Option Nat
  | [], _ => none
  | c :: rest, i =>
    if lit.isPrefixOf (c :: rest) && ((c :: rest).drop lit.length).any (fun d => d = '>') then
      some i
    else searchTagAux lit rest (i + 1)

/-- `re.search` for the structural patterns `(<graph[^>]*>)` and
`(<edge[^>]*>)`, returning the match start. -/
def reSearch (lit : String) (content : String) : Option Nat :=
  searchTagAux lit.data content.data 0

/-- `sorted(node_ids)` (rebuild.py line 123): Python's sort on strings is
lexicographic by code point, modelled as insertion sort under the
lexicographic order of the character lists; on a duplicate-free input
(the extracted set) the sorted result is uniquely determined, so the
choice of sorting algorithm is immaterial. -/
def pySorted (l : List String) : List String :=
  l.insertionSort (fun a b => a.data ≤ b.data)

/-- The sorted list of referenced node identifiers used by the composer. -/
def sortedNodeIds (content : String) : List String :=
  pySorted (extract_node_ids_from_xgmml content)

/-- `'\n'.join(node_xmls) + '\n'` over the synthesized nodes
(rebuild.py lines 119-125 and 157). -/
def nodesBlock (xgmml fasta metadata : String) : String :=
  String.intercalate "\n"
    ((sortedNodeIds xgmml).map
      (fun node_id => create_node_xml node_id (parse_fasta fasta) (parse_metadata_tab metadata)))
  ++ "\n"

/-- `rebuild_xgmml` (rebuild.py lines 105-164) on file contents: parse
the three inputs, check the two structural anchors, and splice the node
block in immediately before the first edge tag.  `Except.error` is the
`ValueError` raised before the output file is opened (so nothing is
written); `Except.ok` carries the full text written to the output file.
The source parses the inputs before the structural checks; parsing is
pure and total here, so the checks are equivalently performed first. -/
def rebuild_xgmml (xgmml fasta metadata : String) : Except String String :=
  match reSearch "<graph" xgmml with
  | none => Except.error "Could not find <graph> opening tag in XGMML file"
  | some _ =>
    match reSearch "<edge" xgmml with
    | none => Except.error "Could not find any <edge> elements in XGMML file"
    | some insert_pos =>
      Except.ok (String.mk (xgmml.data.take insert_pos) ++ nodesBlock xgmml fasta metadata ++
        String.mk (xgmml.data.drop insert_pos))

/-- Characters allowed in an attribute value for the edge-document
theorems: anything except the four characters that interact with the two
extraction patterns (`"`, `<`, `>`, `=`). -/
def safeChar (c : Char) : Bool :=
  c ≠ '"' && c ≠ '<' && c ≠ '>' && c ≠ '='

/-- The text of one edge tag, `<edge source="src" target="tgt">` when
`srcFirst` and `<edge target="tgt" source="src">` otherwise, built from
the pattern literals (`' ' :: litSource` is ` source="`, and
`'"' :: ' ' :: litTarget` is `" target="`). -/
def renderEdgeL (src tgt : List Char) (srcFirst : Bool) : List Char :=
  if srcFirst then
    litEdge ++ (' ' :: litSource) ++ src ++ ('"' :: ' ' :: litTarget) ++ tgt ++ ['"', '>']
  else
    litEdge ++ (' ' :: litTarget) ++ tgt ++ ('"' :: ' ' :: litSource) ++ src ++ ['"', '>']

/-- One edge tag as a string. -/
def renderEdge (src tgt : String) (srcFirst : Bool) : String :=
  String.mk (renderEdgeL src.data tgt.data srcFirst)

/-- A document made of a header followed by rendered edge tags, each
terminated by a newline. -/
def edgeDoc (header : String) (es : List (String × String × Bool)) : String :=
  header ++ String.join (es.map (fun e => renderEdge e.1 e.2.1 e.2.2 ++ "\n"))

/-- No occurrence of `lit` starts at any offset `j ≤ b` of `cs`. -/
def NoPre (lit cs : List Char) (b : Nat) : Prop :=
  ∀ j, j ≤ b → ¬ (lit.isPrefixOf (cs.drop j) = true)

/-! ## Generic lemmas about the embedded scanner -/

theorem length_dropWhile_le (p : Char → Bool) (l : List Char) :
    (l.dropWhile p).length ≤ l.length := by
  induction l with
  | nil => simp [List.dropWhile]
  | cons c cs ih =>
    by_cases h : p c <;> simp [List.dropWhile_cons, h] <;> omega

theorem tryCapture_some {cs cap rest : List Char} (h : tryCapture cs = some (cap, rest)) :
    cap = cs.takeWhile (fun c => c ≠ '"') ∧ rest.length < cs.length := by
  unfold tryCapture at h
  cases hd : cs.dropWhile (fun c => c ≠ '"') with
  | nil => rw [hd] at h; exact absurd h (by simp)
  | cons c r =>
    rw [hd] at h
    have hlen : (c :: r).length ≤ cs.length := hd ▸ length_dropWhile_le _ cs
    simp only [Option.some.injEq, Prod.mk.injEq] at h
    refine ⟨h.1.symm, ?_⟩
    rw [← h.2]
    simp only [List.length_cons] at hlen
    omega

theorem attemptAt_some {lit cs : List Char} {j : Nat} {r : List Char × List Char}
    (h : attemptAt lit cs j = some r) :
    lit.isPrefixOf (cs.drop j) = true ∧ tryCapture ((cs.drop j).drop lit.length) = some r := by
  unfold attemptAt at h
  by_cases hp : lit.isPrefixOf (cs.drop j) = true
  · rw [if_pos hp] at h; exact ⟨hp, h⟩
  · rw [if_neg hp] at h; exact absurd h (by simp)

theorem matchInner_some {lit cs : List Char} {r : List Char × List Char} :
    ∀ {k : Nat}, matchInner lit cs k = some r → ∃ j, j ≤ k ∧ attemptAt lit cs j = some r := by
  intro k
  induction k with
  | zero => intro h; exact ⟨0, Nat.le_refl 0, h⟩
  | succ k ih =>
    intro h
    unfold matchInner at h
    cases ha : attemptAt lit cs (k + 1) with
    | some r' =>
      rw [ha] at h
      have h' : some r' = some r := h
      exact ⟨k + 1, Nat.le_refl _, by rw [ha, h']⟩
    | none =>
      rw [ha] at h
      obtain ⟨j, hj, hja⟩ := ih h
      exact ⟨j, Nat.le_succ_of_le hj, hja⟩

theorem matchEdgeAttr_some {lit cs : List Char} {r : List Char × List Char}
    (h : matchEdgeAttr lit cs = some r) :
    litEdge.isPrefixOf cs = true ∧ ∃ j, attemptAt lit (cs.drop 5) j = some r := by
  unfold matchEdgeAttr at h
  by_cases hp : litEdge.isPrefixOf cs = true
  · rw [if_pos hp] at h
    obtain ⟨j, _, hj⟩ := matchInner_some h
    exact ⟨hp, j, hj⟩
  · rw [if_neg hp] at h; exact absurd h (by simp)

theorem matchEdgeAttr_length_lt {lit cs cap after : List Char}
    (h : matchEdgeAttr lit cs = some (cap, after)) : after.length < cs.length := by
  obtain ⟨hp, j, hj⟩ := matchEdgeAttr_some h
  obtain ⟨hpre, hcap⟩ := attemptAt_some hj
  have h5 : 5 ≤ cs.length := by
    have := (List.isPrefixOf_iff_prefix.mp hp).length_le
    simpa [litEdge] using this
  have hlt := (tryCapture_some hcap).2
  have hle1 : ((cs.drop 5).drop j).length ≤ (cs.drop 5).length := by
    rw [List.length_drop]; omega
  have hle2 : (((cs.drop 5).drop j).drop lit.length).length ≤ ((cs.drop 5).drop j).length := by
    rw [List.length_drop]; omega
  have : (cs.drop 5).length = cs.length - 5 := List.length_drop 5 cs
  omega

theorem findEdgeAttrAux_cons (lit : List Char) (fuel : Nat) (c : Char) (rest : List Char) :
    findEdgeAttrAux lit (fuel + 1) (c :: rest) =
      match matchEdgeAttr lit (c :: rest) with
      | some (cap, after) => cap :: findEdgeAttrAux lit fuel after
      | none => findEdgeAttrAux lit fuel rest := rfl

theorem findEdgeAttrAux_fuel (lit : List Char) :
    ∀ f₁ f₂ cs, cs.length ≤ f₁ → cs.length ≤ f₂ →
      findEdgeAttrAux lit f₁ cs = findEdgeAttrAux lit f₂ cs := by
  intro f₁
  induction f₁ with
  | zero =>
    intro f₂ cs h₁ _
    have : cs = [] := List.length_eq_zero.mp (Nat.le_zero.mp h₁)
    subst this
    cases f₂ <;> rfl
  | succ f₁ ih =>
    intro f₂ cs h₁ h₂
    cases cs with
    | nil => cases f₂ <;> rfl
    | cons c rest =>
      cases f₂ with
      | zero => simp at h₂
      | succ g =>
        simp only [List.length_cons] at h₁ h₂
        rw [findEdgeAttrAux_cons, findEdgeAttrAux_cons]
        cases hm : matchEdgeAttr lit (c :: rest) with
        | some r =>
          obtain ⟨cap, after⟩ := r
          have hlt := matchEdgeAttr_length_lt hm
          simp only [List.length_cons] at hlt
          simp only
          rw [ih g after (by omega) (by omega)]
        | none =>
          simp only
          rw [ih g rest (by omega) (by omega)]

theorem reFindAll_match {lit cs cap after : List Char}
    (h : matchEdgeAttr lit cs = some (cap, after)) :
    reFindAll lit cs = cap :: reFindAll lit after := by
  cases cs with
  | nil =>
    exfalso
    have := (matchEdgeAttr_some h).1
    simp [litEdge, List.isPrefixOf] at this
  | cons c rest =>
    have hlt := matchEdgeAttr_length_lt h
    simp only [List.length_cons] at hlt
    show findEdgeAttrAux lit (rest.length + 1) (c :: rest) = _
    rw [findEdgeAttrAux_cons, h]
    show cap :: findEdgeAttrAux lit rest.length after = cap :: reFindAll lit after
    rw [findEdgeAttrAux_fuel lit rest.length after.length after (by omega) (Nat.le_refl _)]
    rfl

theorem reFindAll_skip {lit : List Char} {c : Char} {cs : List Char}
    (h : matchEdgeAttr lit (c :: cs) = none) :
    reFindAll lit (c :: cs) = reFindAll lit cs := by
  show findEdgeAttrAux lit (cs.length + 1) (c :: cs) = _
  rw [findEdgeAttrAux_cons, h]
  rfl

theorem matchEdgeAttr_none_of_ne {lit : List Char} {c : Char} {cs : List Char}
    (h : c ≠ '<') : matchEdgeAttr lit (c :: cs) = none := by
  unfold matchEdgeAttr
  rw [if_neg]
  simp only [litEdge, List.isPrefixOf]
  simp [beq_eq_false_iff_ne, Ne.symm h]

theorem reFindAll_append_of_no_lt {lit : List Char} {l cs : List Char}
    (h : ∀ c ∈ l, c ≠ '<') :
    reFindAll lit (l ++ cs) = reFindAll lit cs := by
  induction l with
  | nil => rfl
  | cons c l' ih =>
    rw [List.cons_append, reFindAll_skip (matchEdgeAttr_none_of_ne (h c (List.mem_cons_self c l')))]
    exact ih (fun d hd => h d (List.mem_cons_of_mem c hd))

theorem mem_findEdgeAttrAux_no_quote (lit : List Char) :
    ∀ (fuel : Nat) (cs cap : List Char), cap ∈ findEdgeAttrAux lit fuel cs →
      ∀ ch ∈ cap, ch ≠ '"' := by
  intro fuel
  induction fuel with
  | zero => intro cs cap h; simp [findEdgeAttrAux] at h
  | succ fuel ih =>
    intro cs cap h
    cases cs with
    | nil => simp [findEdgeAttrAux] at h
    | cons c rest =>
      rw [findEdgeAttrAux_cons] at h
      cases hm : matchEdgeAttr lit (c :: rest) with
      | some r =>
        obtain ⟨cap0, after⟩ := r
        rw [hm] at h
        rcases List.mem_cons.mp h with hc | hc
        · subst hc
          obtain ⟨_, j, hj⟩ := matchEdgeAttr_some hm
          obtain ⟨_, hcap⟩ := attemptAt_some hj
          have := (tryCapture_some hcap).1
          intro ch hch
          rw [this] at hch
          have := List.mem_takeWhile_imp hch
          simpa using this
        · exact ih after cap hc
      | none =>
        rw [hm] at h
        exact ih rest cap h

/-! ## Claim C10: extracted identifiers never contain a double quote -/

/-- Claim C10: for every document text, every identifier in the reference
set returned by the extractor contains no double-quote character — the
attribute values are captured only up to the closing quote, so an
extracted identifier re-interpolated between double quotes can never
itself terminate the quoting. -/
theorem extract_no_quote (content : String) (id : String)
    (h : id ∈ extract_node_ids_from_xgmml content) : ∀ c ∈ id.data, c ≠ '"' := by
  unfold extract_node_ids_from_xgmml at h
  rw [List.mem_dedup] at h
  rcases List.mem_append.mp h with hm | hm <;>
  · obtain ⟨cap, hcap, hid⟩ := List.mem_map.mp hm
    subst hid
    exact mem_findEdgeAttrAux_no_quote _ _ _ cap hcap

/-- Witness for C10 at a concrete document. -/
theorem extract_no_quote_witness :
    "A" ∈ extract_node_ids_from_xgmml "<edge source=\"A\">x" ∧
      ∀ c ∈ "A".data, c ≠ '"' :=
  ⟨by decide, extract_no_quote "<edge source=\"A\">x" "A" (by decide)⟩

/-! ## Claim C2: the node synthesizer -/

theorem findCaseInsensitive_eq_find? (node_id : String) (d : List (String × String)) :
    findCaseInsensitive node_id d = d.find? (fun p => pyUpper p.1 == pyUpper node_id) := by
  induction d with
  | nil => rfl
  | cons p rest ih =>
    by_cases h : pyUpper p.1 = pyUpper node_id <;>
      simp [findCaseInsensitive, List.find?_cons, h, ih]

/-- Claim C2: the synthesized node element uses the sequence of the first
entry, in the sequence mapping's insertion order, whose identifier
uppercased equals the target identifier uppercased, with the length as
that sequence's character count; if no entry matches, the sequence is
`""` and the length `0` (no error); the description is likewise the
first case-insensitive match, or the literal `"Unknown"`; and the `id`
and `label` attributes always show the identifier in its original
casing. -/
theorem create_node_xml_spec (node_id : String) (sequences descriptions : List (String × String)) :
    create_node_xml node_id sequences descriptions =
      "  <node id=\"" ++ node_id ++ "\" label=\"" ++ node_id ++ "\">\n" ++
      "    <att name=\"Sequence Source\" type=\"string\" value=\"USER\" />\n" ++
      "    <att name=\"Sequence Length\" type=\"integer\" value=\"" ++
        toString
          (((sequences.find? (fun p => pyUpper p.1 == pyUpper node_id)).map
            (fun p => p.2.length)).getD 0) ++ "\" />\n" ++
      "    <att type=\"list\" name=\"Other IDs\">\n" ++
      "      <att type=\"string\" name=\"Other IDs\" value=\"None\" />\n" ++
      "    </att>\n" ++
      "    <att name=\"Sequence\" type=\"string\" value=\"" ++
        (((sequences.find? (fun p => pyUpper p.1 == pyUpper node_id)).map Prod.snd).getD "") ++
        "\" />\n" ++
      "    <att type=\"list\" name=\"Description\">\n" ++
      "      <att type=\"string\" name=\"Description\" value=\"" ++
        (((descriptions.find? (fun p => pyUpper p.1 == pyUpper node_id)).map Prod.snd).getD
          "Unknown") ++ "\" />\n" ++
      "    </att>\n" ++
      "  </node>" := by
  unfold create_node_xml
  rw [findCaseInsensitive_eq_find?, findCaseInsensitive_eq_find?]
  cases sequences.find? (fun p => pyUpper p.1 == pyUpper node_id) <;>
    cases descriptions.find? (fun p => pyUpper p.1 == pyUpper node_id) <;> rfl

/-! ## The dict model: lookup after insertion -/

theorem find?_map_update (d : List (String × String)) (k v k' : String) (h : k' ≠ k) :
    (d.map (fun p => if p.1 = k then (k, v) else p)).find? (fun p => p.1 = k') =
      d.find? (fun p => p.1 = k') := by
  induction d with
  | nil => rfl
  | cons p rest ih =>
    simp only [List.map_cons, List.find?_cons]
    by_cases hpk : p.1 = k
    · rw [if_pos hpk]
      have h1 : (decide ((k, v).1 = k')) = false := by
        simp only [decide_eq_false_iff_not]
        exact fun hc => h hc.symm
      have h2 : (decide (p.1 = k')) = false := by
        simp only [decide_eq_false_iff_not]
        rw [hpk]
        exact fun hc => h hc.symm
      rw [h1, h2]
      exact ih
    · rw [if_neg hpk]
      cases hd : (decide (p.1 = k')) <;> simp [hd, ih]

theorem dictLookup_dictInsert_self (d : List (String × String)) (k v : String) :
    dictLookup (dictInsert d k v) k = some v := by
  unfold dictInsert
  by_cases hmem : d.any (fun p => p.1 = k)
  · rw [if_pos hmem]
    induction d with
    | nil => simp at hmem
    | cons p rest ih =>
      simp only [List.map_cons]
      by_cases hpk : p.1 = k
      · unfold dictLookup
        simp [List.find?_cons, hpk]
      · rw [if_neg hpk]
        have hmem' : rest.any (fun p => p.1 = k) := by
          rcases List.any_eq_true.mp hmem with ⟨q, hq, hqk⟩
          rcases List.mem_cons.mp hq with rfl | hq'
          · exact absurd (of_decide_eq_true hqk) hpk
          · exact List.any_eq_true.mpr ⟨q, hq', hqk⟩
        have := ih hmem'
        unfold dictLookup at this ⊢
        simp only [List.find?_cons]
        have h2 : (decide (p.1 = k)) = false := decide_eq_false hpk
        rw [h2]
        exact this
  · rw [if_neg hmem]
    induction d with
    | nil =>
      unfold dictLookup
      simp [List.find?_cons]
    | cons p rest ih =>
      have hpk : ¬ p.1 = k := by
        intro hc
        exact hmem (List.any_eq_true.mpr ⟨p, List.mem_cons_self p rest, decide_eq_true hc⟩)
      have hmem' : ¬ rest.any (fun p => p.1 = k) := by
        intro hc
        rcases List.any_eq_true.mp hc with ⟨q, hq, hqk⟩
        exact hmem (List.any_eq_true.mpr ⟨q, List.mem_cons_of_mem p hq, hqk⟩)
      have := ih hmem'
      unfold dictLookup at this ⊢
      simp only [List.cons_append, List.find?_cons]
      have h2 : (decide (p.1 = k)) = false := decide_eq_false hpk
      rw [h2]
      exact this

theorem dictLookup_dictInsert_ne (d : List (String × String)) (k v k' : String)
    (h : k' ≠ k) : dictLookup (dictInsert d k v) k' = dictLookup d k' := by
  unfold dictInsert
  by_cases hmem : d.any (fun p => p.1 = k)
  · rw [if_pos hmem]
    unfold dictLookup
    rw [find?_map_update d k v k' h]
  · rw [if_neg hmem]
    unfold dictLookup
    induction d with
    | nil =>
      simp only [List.nil_append, List.find?_cons]
      have h1 : (decide ((k, v).1 = k')) = false := by
        simp only [decide_eq_false_iff_not]
        exact fun hc => h hc.symm
      rw [h1]
    | cons p rest ih =>
      have hmem' : ¬ rest.any (fun p => p.1 = k) := by
        intro hc
        rcases List.any_eq_true.mp hc with ⟨q, hq, hqk⟩
        exact hmem (List.any_eq_true.mpr ⟨q, List.mem_cons_of_mem p hq, hqk⟩)
      simp only [List.cons_append, List.find?_cons]
      cases hd : (decide (p.1 = k')) with
      | true => rfl
      | false => exact ih hmem'

theorem dictLookup_dictInsert (d : List (String × String)) (k v k' : String) :
    dictLookup (dictInsert d k v) k' =
      if k' = k then some v else dictLookup d k' := by
  by_cases h : k' = k
  · rw [if_pos h, h]
    exact dictLookup_dictInsert_self d k v
  · rw [if_neg h]
    exact dictLookup_dictInsert_ne d k v k' h

/-! ## Claim C6: the annotation parser -/

theorem dictLookup_metadataStep (d : List (String × String)) (line id : String) :
    dictLookup (metadataStep d line) id = (descRow id line).or (dictLookup d id) := by
  unfold metadataStep descRow
  by_cases h3 : 3 ≤ (pySplitChar '\t' (pyStrip line)).length
  · by_cases hdesc : (pySplitChar '\t' (pyStrip line)).getD 1 "" = "Description"
    · by_cases hid : (pySplitChar '\t' (pyStrip line)).getD 0 "" = id
      · rw [if_pos h3, if_pos hdesc, if_pos ⟨h3, hdesc, hid⟩, dictLookup_dictInsert,
          if_pos hid.symm]
        rfl
      · rw [if_pos h3, if_pos hdesc, if_neg (fun hc => hid hc.2.2), dictLookup_dictInsert,
          if_neg (fun hc => hid hc.symm)]
        rfl
    · rw [if_pos h3, if_neg hdesc, if_neg (fun hc => hdesc hc.2.1)]
      rfl
  · rw [if_neg h3, if_neg (fun hc => h3 hc.1)]
    rfl

theorem dictLookup_metadata_foldl (id : String) :
    ∀ (lines : List String) (d : List (String × String)),
      dictLookup (lines.foldl metadataStep d) id =
        ((lines.filterMap (descRow id)).getLast?).or (dictLookup d id) := by
  intro lines
  induction lines with
  | nil => intro d; simp
  | cons l ls ih =>
    intro d
    rw [List.foldl_cons, ih (metadataStep d l), dictLookup_metadataStep]
    show _ = ((([l] ++ ls).filterMap (descRow id)).getLast?).or (dictLookup d id)
    rw [List.filterMap_append, List.getLast?_append, Option.or_assoc]
    congr 1
    cases hr : descRow id l <;> simp [List.filterMap, hr]

/-- Claim C6: the annotation parser discards the first line
unconditionally, silently skips every remaining line with fewer than
three tab-separated fields, creates or overwrites an entry
(field 0 ↦ field 2) only for rows whose attribute-name field is exactly
`"Description"`, a later `Description` row for the same identifier
overwriting an earlier one, and non-`Description` rows never creating or
overwriting any entry: the final value looked up for any identifier is
exactly the contribution of the last valid `Description` row for it
among the lines after the first. -/
theorem parse_metadata_tab_lookup (content id : String) :
    dictLookup (parse_metadata_tab content) id =
      (((pyReadlines content).drop 1).filterMap (descRow id)).getLast? := by
  unfold parse_metadata_tab
  rw [dictLookup_metadata_foldl id ((pyReadlines content).drop 1) []]
  have h0 : dictLookup [] id = none := rfl
  rw [h0, Option.or_none]

/-! ## Structure of `pyStrip` and `pySplitChar` -/

theorem dropWhile_eq_nil_or_head (w : Char → Bool) (cs : List Char) :
    cs.dropWhile w = [] ∨ ∃ c cs', cs.dropWhile w = c :: cs' ∧ w c = false := by
  induction cs with
  | nil => exact Or.inl rfl
  | cons c rest ih =>
    by_cases hc : w c
    · rw [List.dropWhile_cons, if_pos hc]
      exact ih
    · rw [List.dropWhile_cons, if_neg hc]
      exact Or.inr ⟨c, rest, rfl, by simpa using hc⟩

theorem dropWhile_append_singleton (w : Char → Bool) (a : Char) (ha : w a = false) :
    ∀ xs : List Char, ∃ ys, (xs ++ [a]).dropWhile w = ys ++ [a] := by
  intro xs
  induction xs with
  | nil =>
    refine ⟨[], ?_⟩
    rw [List.nil_append, List.dropWhile_cons, if_neg (by simp [ha])]
  | cons x xs ih =>
    by_cases hx : w x
    · obtain ⟨ys, hys⟩ := ih
      exact ⟨ys, by rw [List.cons_append, List.dropWhile_cons, if_pos hx, hys]⟩
    · exact ⟨x :: xs, by rw [List.cons_append, List.dropWhile_cons, if_neg hx]⟩

theorem stripList_cons_ne_nil {c : Char} (hc : isPyWhitespace c = false) (xs : List Char) :
    stripList (c :: xs) ≠ [] := by
  unfold stripList
  rw [List.dropWhile_cons, if_neg (by simp [hc])]
  rw [List.reverse_cons]
  obtain ⟨ys, hys⟩ := dropWhile_append_singleton isPyWhitespace c hc xs.reverse
  rw [hys, List.reverse_append]
  simp

theorem stripList_head_not_ws (cs : List Char) :
    stripList cs = [] ∨ ∃ c cs', stripList cs = c :: cs' ∧ isPyWhitespace c = false := by
  rcases dropWhile_eq_nil_or_head isPyWhitespace cs with hnil | ⟨c, cs', hcons, hc⟩
  · left
    unfold stripList
    rw [hnil]
    rfl
  · right
    unfold stripList
    rw [hcons, List.reverse_cons]
    obtain ⟨ys, hys⟩ := dropWhile_append_singleton isPyWhitespace c hc cs'.reverse
    rw [hys, List.reverse_append]
    exact ⟨c, ys.reverse, rfl, hc⟩

theorem splitOnCharAux_ne_nil (sep : Char) (cs : List Char) : splitOnCharAux sep cs ≠ [] := by
  induction cs with
  | nil => simp [splitOnCharAux]
  | cons c rest ih =>
    unfold splitOnCharAux
    by_cases hc : c = sep
    · simp [hc]
    · rw [if_neg hc]
      cases h : splitOnCharAux sep rest with
      | nil => exact absurd h ih
      | cons p ps => simp

theorem splitOnCharAux_head (sep : Char) (cs : List Char) :
    (splitOnCharAux sep cs).headD [] = cs.takeWhile (fun c => c ≠ sep) := by
  induction cs with
  | nil => rfl
  | cons c rest ih =>
    unfold splitOnCharAux
    by_cases hc : c = sep
    · rw [if_pos hc, List.takeWhile_cons, if_neg (by simp [hc])]
      rfl
    · rw [if_neg hc, List.takeWhile_cons, if_pos (by simp [hc])]
      cases h : splitOnCharAux sep rest with
      | nil => exact absurd h (splitOnCharAux_ne_nil sep rest)
      | cons p ps =>
        rw [h] at ih
        simp only [List.headD_cons] at ih ⊢
        rw [ih]

theorem mem_splitOnCharAux_no_sep (sep : Char) :
    ∀ (cs : List Char), ∀ p ∈ splitOnCharAux sep cs, sep ∉ p := by
  intro cs
  induction cs with
  | nil =>
    intro p hp
    simp [splitOnCharAux] at hp
    simp [hp]
  | cons c rest ih =>
    intro p hp
    unfold splitOnCharAux at hp
    by_cases hc : c = sep
    · rw [if_pos hc] at hp
      rcases List.mem_cons.mp hp with rfl | hp'
      · simp
      · exact ih p hp'
    · rw [if_neg hc] at hp
      cases h : splitOnCharAux sep rest with
      | nil => exact absurd h (splitOnCharAux_ne_nil sep rest)
      | cons q qs =>
        rw [h] at hp
        rcases List.mem_cons.mp hp with rfl | hp'
        · intro hmem
          rcases List.mem_cons.mp hmem with rfl | hmem'
          · exact hc rfl
          · exact ih q (h ▸ List.mem_cons_self q qs) hmem'
        · exact ih p (h ▸ List.mem_cons_of_mem q hp')

/-! ## Claims C7 and C8: the sequence-source parser -/

theorem fastaRecord_id (entry : String) :
    (fastaRecord entry).1 =
      String.mk (stripList ((stripList entry.data).takeWhile (fun c => c ≠ '\n'))) := by
  unfold fastaRecord pySplitChar pyStrip
  cases h : splitOnCharAux '\n' (stripList entry.data) with
  | nil => exact absurd h (splitOnCharAux_ne_nil _ _)
  | cons p ps =>
    have hhead := splitOnCharAux_head '\n' (stripList entry.data)
    rw [h] at hhead
    simp only [List.headD_cons] at hhead
    simp only [List.map_cons, List.headD_cons]
    rw [hhead]

theorem fastaRecord_empty_id {entry : String} (h : (fastaRecord entry).1 = "") :
    (fastaRecord entry).2 = "" := by
  have hempty : stripList entry.data = [] := by
    rcases stripList_head_not_ws entry.data with hnil | ⟨c, cs', hcons, hc⟩
    · exact hnil
    · exfalso
      have hid := fastaRecord_id entry
      rw [h] at hid
      rw [hcons] at hid
      have hcn : c ≠ '\n' := by
        intro hc'
        rw [hc'] at hc
        simp [isPyWhitespace] at hc
      rw [List.takeWhile_cons, if_pos (by simp [hcn])] at hid
      have : stripList (c :: List.takeWhile (fun c => c ≠ '\n') cs') = [] := by
        have := congrArg String.data hid
        simpa using this.symm
      exact stripList_cons_ne_nil hc _ this
  have hstrip : pyStrip entry = "" := by
    unfold pyStrip
    rw [hempty]
  show (fastaRecord entry).2 = ""
  unfold fastaRecord
  rw [hstrip]
  rfl

theorem mem_dictInsert {d : List (String × String)} {k v : String} {p : String × String}
    (h : p ∈ dictInsert d k v) : p ∈ d ∨ p = (k, v) := by
  unfold dictInsert at h
  by_cases hmem : d.any (fun q => q.1 = k)
  · rw [if_pos hmem] at h
    obtain ⟨q, hq, hfq⟩ := List.mem_map.mp h
    by_cases hqk : q.1 = k
    · rw [if_pos hqk] at hfq
      exact Or.inr hfq.symm
    · rw [if_neg hqk] at hfq
      exact Or.inl (hfq ▸ hq)
  · rw [if_neg hmem] at h
    rcases List.mem_append.mp h with h' | h'
    · exact Or.inl h'
    · exact Or.inr (List.mem_singleton.mp h')

theorem mem_fastaStep {d : List (String × String)} {entry : String} {p : String × String}
    (h : p ∈ fastaStep d entry) : p ∈ d ∨ p = fastaRecord entry := by
  unfold fastaStep at h
  by_cases hg : pySplitChar '\n' (pyStrip entry) ≠ []
  · rw [if_pos hg] at h
    rcases mem_dictInsert h with h' | h'
    · exact Or.inl h'
    · exact Or.inr h'
  · rw [if_neg hg] at h
    exact Or.inl h

theorem mem_parse_fasta_fold :
    ∀ (entries : List String) (d : List (String × String)) (p : String × String),
      p ∈ entries.foldl fastaStep d →
      p ∈ d ∨ ∃ entry ∈ entries, p = fastaRecord entry := by
  intro entries
  induction entries with
  | nil => intro d p h; exact Or.inl h
  | cons e es ih =>
    intro d p h
    rw [List.foldl_cons] at h
    rcases ih (fastaStep d e) p h with h' | ⟨entry, hentry, hrec⟩
    · rcases mem_fastaStep h' with h'' | h''
      · exact Or.inl h''
      · exact Or.inr ⟨e, List.mem_cons_self e es, h''⟩
    · exact Or.inr ⟨entry, List.mem_cons_of_mem e hentry, hrec⟩

/-- Amended claim C7: the parser cannot produce an empty identifier from a
record containing any non-whitespace character; but a record that is
entirely whitespace (for example the file consisting of just `">"`) is
not skipped — it produces the entry mapping the empty identifier to the
empty sequence.  (First conjunct: an empty-identifier entry always
carries the empty sequence; second conjunct: any record whose stripped
content is nonempty yields a nonempty identifier.) -/
theorem parse_fasta_empty_id_amended (content : String) :
    (∀ p ∈ parse_fasta content, p.1 = "" → p.2 = "") ∧
    (∀ entry ∈ (pySplitChar '>' content).drop 1,
      pyStrip entry ≠ "" → (fastaRecord entry).1 ≠ "") := by
  constructor
  · intro p hp hid
    rcases mem_parse_fasta_fold _ [] p hp with h | ⟨entry, _, hrec⟩
    · simp at h
    · have : (fastaRecord entry).1 = "" := by rw [hrec] at hid; exact hid
      have h2 := fastaRecord_empty_id this
      rw [hrec]
      exact h2
  · intro entry _ hne
    have hempty : stripList entry.data ≠ [] := by
      intro hc
      apply hne
      unfold pyStrip
      rw [hc]
    rcases stripList_head_not_ws entry.data with hnil | ⟨c, cs', hcons, hc⟩
    · exact absurd hnil hempty
    · rw [fastaRecord_id, hcons]
      have hcn : c ≠ '\n' := by
        intro hc'
        rw [hc'] at hc
        simp [isPyWhitespace] at hc
      rw [List.takeWhile_cons, if_pos (by simp [hcn])]
      intro hcontra
      have : stripList (c :: List.takeWhile (fun c => c ≠ '\n') cs') = [] := by
        have := congrArg String.data hcontra
        simpa using this
      exact stripList_cons_ne_nil hc _ this

/-- Counterexample to claim C7 as stated: on the file `">"` — a single
record marker followed by an all-whitespace (empty) record — the parser
does produce a mapping entry whose identifier is the empty string. -/
theorem parse_fasta_empty_id_counterexample :
    parse_fasta ">" = [("", "")] := by decide

/-- Witness for the amended claim C7 at the same input. -/
theorem parse_fasta_empty_id_witness :
    ("", "") ∈ parse_fasta ">" ∧ ("", "").2 = "" :=
  ⟨by decide, (parse_fasta_empty_id_amended ">").1 ("", "") (by decide) rfl⟩

theorem string_join_data :
    ∀ (l : List String) (s : String),
      (l.foldl (fun r t => r ++ t) s).data = s.data ++ (l.map String.data).flatten := by
  intro l
  induction l with
  | nil => intro s; simp
  | cons x xs ih =>
    intro s
    rw [List.foldl_cons, ih (s ++ x), List.map_cons, List.flatten_cons,
      String.data_append, List.append_assoc]

/-- Amended claim C8: the stored sequence equals the record's body lines
concatenated with every space character removed (the newline removal in
the source is a no-op, the body lines containing no newline after the
split); other whitespace, such as tabs or carriage returns, is retained.
A record with an identifier line and no body lines yields the empty
sequence, not an error. -/
theorem fastaRecord_sequence_spec (entry : String) :
    (fastaRecord entry).2 =
      String.mk
        (((((pySplitChar '\n' (pyStrip entry)).drop 1).map String.data).flatten).filter
          (fun c => c ≠ ' ')) ∧
    ((pySplitChar '\n' (pyStrip entry)).drop 1 = [] → (fastaRecord entry).2 = "") := by
  have hparts : ((pySplitChar '\n' (pyStrip entry)).drop 1).map String.data =
      (splitOnCharAux '\n' (stripList entry.data)).drop 1 := by
    unfold pySplitChar pyStrip
    rw [← List.map_drop, List.map_map]
    have : String.data ∘ String.mk = id := rfl
    rw [this, List.map_id]
  have hnonl : ∀ c ∈ (((pySplitChar '\n' (pyStrip entry)).drop 1).map String.data).flatten,
      c ≠ '\n' := by
    intro c hc
    rw [hparts] at hc
    obtain ⟨part, hpart, hcp⟩ := List.mem_flatten.mp hc
    have hmem := mem_splitOnCharAux_no_sep '\n' (stripList entry.data) part
      (List.drop_subset 1 _ hpart)
    intro hcn
    rw [hcn] at hcp
    exact hmem hcp
  have hmain : (fastaRecord entry).2 =
      String.mk
        (((((pySplitChar '\n' (pyStrip entry)).drop 1).map String.data).flatten).filter
          (fun c => c ≠ ' ')) := by
    show pyReplaceChar ' '
        (pyReplaceChar '\n' (String.join ((pySplitChar '\n' (pyStrip entry)).drop 1))) = _
    unfold pyReplaceChar
    congr 1
    show ((String.join ((pySplitChar '\n' (pyStrip entry)).drop 1)).data.filter
        (fun c => c ≠ '\n')).filter (fun c => c ≠ ' ') = _
    have hjoin : (String.join ((pySplitChar '\n' (pyStrip entry)).drop 1)).data =
        (((pySplitChar '\n' (pyStrip entry)).drop 1).map String.data).flatten := by
      unfold String.join
      rw [string_join_data]
      rfl
    rw [hjoin]
    have hfil : ((((pySplitChar '\n' (pyStrip entry)).drop 1).map String.data).flatten).filter
        (fun c => c ≠ '\n') =
        (((pySplitChar '\n' (pyStrip entry)).drop 1).map String.data).flatten :=
      List.filter_eq_self.mpr (fun a ha => by simpa using hnonl a ha)
    rw [hfil]
  refine ⟨hmain, fun hnil => ?_⟩
  rw [hmain, hnil]
  rfl

/-- Counterexample to claim C8 as stated: a tab character is whitespace
but is not stripped from the stored sequence — the source removes only
spaces (and the newlines already consumed by the line split). -/
theorem parse_fasta_whitespace_counterexample :
    parse_fasta ">X\nA\tB" = [("X", "A\tB")] ∧ '\t' ∈ ("A\tB").data ∧
      isPyWhitespace '\t' = true := by decide

/-- Witness for the amended claim C8: a record with no body lines stores
the empty sequence. -/
theorem fastaRecord_sequence_witness :
    (pySplitChar '\n' (pyStrip "X")).drop 1 = [] ∧ (fastaRecord "X").2 = "" :=
  ⟨by decide, (fastaRecord_sequence_spec "X").2 (by decide)⟩

/-! ## Claims C1, C3, C9: the composer -/

/-- Claim C1: for every document containing a container-opening tag and at
least one edge tag, the composer's output equals
prefix ++ nodes-block ++ suffix, where the prefix is the document text
strictly before the start of the first edge tag and the suffix is the
text from that position onward — and prefix ++ suffix is exactly the
original document (pure insertion; no character outside the inserted
block changes). -/
theorem rebuild_xgmml_pure_insertion (xgmml fasta metadata : String) (g i : Nat)
    (hg : reSearch "<graph" xgmml = some g) (he : reSearch "<edge" xgmml = some i) :
    rebuild_xgmml xgmml fasta metadata =
      Except.ok (String.mk (xgmml.data.take i) ++ nodesBlock xgmml fasta metadata ++
        String.mk (xgmml.data.drop i)) ∧
    String.mk (xgmml.data.take i) ++ String.mk (xgmml.data.drop i) = xgmml := by
  constructor
  · unfold rebuild_xgmml
    rw [hg, he]
  · apply String.toList_inj.mp
    show (String.mk (xgmml.data.take i) ++ String.mk (xgmml.data.drop i)).data = xgmml.data
    rw [String.data_append]
    exact List.take_append_drop i xgmml.data

/-- Witness for C1 at a concrete document. -/
theorem rebuild_xgmml_pure_insertion_witness :
    reSearch "<graph" "<graph><edge x>" = some 0 ∧
    reSearch "<edge" "<graph><edge x>" = some 7 ∧
    (rebuild_xgmml "<graph><edge x>" ">A\nCC" "h\nA\tDescription\tD" =
        Except.ok (String.mk (("<graph><edge x>").data.take 7) ++
          nodesBlock "<graph><edge x>" ">A\nCC" "h\nA\tDescription\tD" ++
          String.mk (("<graph><edge x>").data.drop 7)) ∧
      String.mk (("<graph><edge x>").data.take 7) ++
        String.mk (("<graph><edge x>").data.drop 7) = "<graph><edge x>") :=
  ⟨by decide, by decide,
   rebuild_xgmml_pure_insertion "<graph><edge x>" ">A\nCC" "h\nA\tDescription\tD" 0 7
     (by decide) (by decide)⟩

/-- Claim C3: a document lacking a container-opening tag, or lacking any
edge element, makes the composition fail with the corresponding typed
structural error before any output is produced — the operation is
all-or-nothing and never yields a written document. -/
theorem rebuild_xgmml_structural_error (xgmml fasta metadata : String) :
    (reSearch "<graph" xgmml = none →
      rebuild_xgmml xgmml fasta metadata =
        Except.error "Could not find <graph> opening tag in XGMML file") ∧
    (reSearch "<graph" xgmml ≠ none → reSearch "<edge" xgmml = none →
      rebuild_xgmml xgmml fasta metadata =
        Except.error "Could not find any <edge> elements in XGMML file") ∧
    (reSearch "<graph" xgmml = none ∨ reSearch "<edge" xgmml = none →
      ∀ out, rebuild_xgmml xgmml fasta metadata ≠ Except.ok out) := by
  unfold rebuild_xgmml
  cases hgr : reSearch "<graph" xgmml with
  | none =>
    refine ⟨fun _ => rfl, fun hne => absurd rfl hne, fun _ out => by simp⟩
  | some g =>
    cases her : reSearch "<edge" xgmml with
    | none =>
      refine ⟨fun hc => absurd hc (by simp), fun _ _ => rfl, fun _ out => by simp⟩
    | some i =>
      refine ⟨fun hc => absurd hc (by simp), fun _ hc => absurd hc (by simp), fun h out => ?_⟩
      rcases h with h | h <;> simp at h

/-- Witness for C3 at concrete documents (one lacking the container tag,
one lacking edges). -/
theorem rebuild_xgmml_structural_error_witness :
    (rebuild_xgmml "no tags here" "" "" =
        Except.error "Could not find <graph> opening tag in XGMML file" ∧
      ∀ out, rebuild_xgmml "no tags here" "" "" ≠ Except.ok out) ∧
    rebuild_xgmml "<graph>z" "" "" =
      Except.error "Could not find any <edge> elements in XGMML file" :=
  ⟨⟨(rebuild_xgmml_structural_error "no tags here" "" "").1 (by decide),
    (rebuild_xgmml_structural_error "no tags here" "" "").2.2 (Or.inl (by decide))⟩,
   (rebuild_xgmml_structural_error "<graph>z" "" "").2.1 (by decide) (by decide)⟩

/-- Claim C9: a document with both anchors but an empty reference set
still composes successfully, and the output is not identical to the
input — it is the input with exactly one newline inserted immediately
before the first edge tag, because the concatenated node block is a lone
trailing newline even with zero synthesized nodes. -/
theorem rebuild_xgmml_empty_refs (xgmml fasta metadata : String) (g i : Nat)
    (hg : reSearch "<graph" xgmml = some g) (he : reSearch "<edge" xgmml = some i)
    (hempty : extract_node_ids_from_xgmml xgmml = []) :
    rebuild_xgmml xgmml fasta metadata =
      Except.ok (String.mk (xgmml.data.take i) ++ "\n" ++ String.mk (xgmml.data.drop i)) ∧
    ∀ out, rebuild_xgmml xgmml fasta metadata = Except.ok out → out ≠ xgmml := by
  have hblock : nodesBlock xgmml fasta metadata = "\n" := by
    unfold nodesBlock sortedNodeIds pySorted
    rw [hempty]
    rfl
  have h1 : rebuild_xgmml xgmml fasta metadata =
      Except.ok (String.mk (xgmml.data.take i) ++ "\n" ++ String.mk (xgmml.data.drop i)) := by
    unfold rebuild_xgmml
    rw [hg, he, hblock]
  refine ⟨h1, fun out hout => ?_⟩
  rw [h1] at hout
  have hout' : String.mk (xgmml.data.take i) ++ "\n" ++ String.mk (xgmml.data.drop i) = out :=
    Except.ok.inj hout
  intro hcontra
  have hlen : out.data.length = xgmml.data.length + 1 := by
    rw [← hout']
    rw [String.data_append, String.data_append]
    simp only [List.length_append]
    have hsum : (xgmml.data.take i).length + (xgmml.data.drop i).length = xgmml.data.length := by
      rw [← List.length_append, List.take_append_drop]
    show (String.mk (xgmml.data.take i)).data.length + ("\n").data.length +
      (String.mk (xgmml.data.drop i)).data.length = _
    show (xgmml.data.take i).length + 1 + (xgmml.data.drop i).length = _
    omega
  rw [hcontra] at hlen
  omega

/-- Witness for C9 at a concrete document whose single edge carries no
source or target attribute. -/
theorem rebuild_xgmml_empty_refs_witness :
    reSearch "<graph" "<graph><edge q>" = some 0 ∧
    reSearch "<edge" "<graph><edge q>" = some 7 ∧
    extract_node_ids_from_xgmml "<graph><edge q>" = [] ∧
    rebuild_xgmml "<graph><edge q>" "" "" =
      Except.ok (String.mk (("<graph><edge q>").data.take 7) ++ "\n" ++
        String.mk (("<graph><edge q>").data.drop 7)) :=
  ⟨by decide, by decide, by decide,
   (rebuild_xgmml_empty_refs "<graph><edge q>" "" "" 0 7 (by decide) (by decide)
     (by decide)).1⟩

/-! ## Claim C4: node ordering -/

/-- Claim C4: the synthesized node elements appear in the output in
lexicographic, case-sensitive order (code-point order on the identifier
strings as they appear in the edge attributes), regardless of the order
in which identifiers were discovered in the edge scan: the sorted
identifier list is sorted and duplicate-free, carries exactly the
extracted reference set, depends only on the membership of that set (not
on discovery order), and is the exact list the node block renders in
order. -/
theorem sortedNodeIds_spec (content : String) :
    List.Sorted (fun a b : String => a.data ≤ b.data) (sortedNodeIds content) ∧
    (∀ x, x ∈ sortedNodeIds content ↔ x ∈ extract_node_ids_from_xgmml content) ∧
    (sortedNodeIds content).Nodup ∧
    (∀ other,
      (∀ x, x ∈ extract_node_ids_from_xgmml other ↔ x ∈ extract_node_ids_from_xgmml content) →
      sortedNodeIds other = sortedNodeIds content) ∧
    (∀ fasta metadata, nodesBlock content fasta metadata =
      String.intercalate "\n"
        ((sortedNodeIds content).map
          (fun node_id =>
            create_node_xml node_id (parse_fasta fasta) (parse_metadata_tab metadata))) ++ "\n") := by
  haveI htrans : IsTrans String (fun a b : String => a.data ≤ b.data) :=
    ⟨fun _ _ _ hab hbc => le_trans hab hbc⟩
  haveI htot : IsTotal String (fun a b : String => a.data ≤ b.data) :=
    ⟨fun a b => le_total a.data b.data⟩
  haveI hanti : IsAntisymm String (fun a b : String => a.data ≤ b.data) :=
    ⟨fun _ _ hab hba => String.toList_inj.mp (le_antisymm hab hba)⟩
  have hsorted : ∀ c : String,
      List.Sorted (fun a b : String => a.data ≤ b.data) (sortedNodeIds c) :=
    fun c => List.sorted_insertionSort _ _
  have hmem : ∀ (c : String) (x : String),
      x ∈ sortedNodeIds c ↔ x ∈ extract_node_ids_from_xgmml c :=
    fun c x => (List.perm_insertionSort _ _).mem_iff
  have hnodup : ∀ c : String, (sortedNodeIds c).Nodup :=
    fun c => (List.perm_insertionSort _ _).nodup_iff.mpr (List.nodup_dedup _)
  refine ⟨hsorted content, hmem content, hnodup content, fun other hiff => ?_, fun _ _ => rfl⟩
  have hperm : (sortedNodeIds other).Perm (sortedNodeIds content) := by
    rw [List.perm_ext_iff_of_nodup (hnodup other) (hnodup content)]
    intro x
    rw [hmem other x, hmem content x, hiff x]
  exact List.eq_of_perm_of_sorted hperm (hsorted other) (hsorted content)

/-- Witness for C4: two documents whose edges list the same identifiers
in opposite discovery order produce the same sorted identifier list. -/
theorem sortedNodeIds_spec_witness :
    (∀ x, x ∈ extract_node_ids_from_xgmml "<edge source=\"B\" target=\"A\">" ↔
        x ∈ extract_node_ids_from_xgmml "<edge source=\"A\" target=\"B\">") ∧
    sortedNodeIds "<edge source=\"B\" target=\"A\">" =
      sortedNodeIds "<edge source=\"A\" target=\"B\">" :=
  ⟨by
    intro x
    have h1 : extract_node_ids_from_xgmml "<edge source=\"B\" target=\"A\">" = ["B", "A"] := by
      decide
    have h2 : extract_node_ids_from_xgmml "<edge source=\"A\" target=\"B\">" = ["A", "B"] := by
      decide
    rw [h1, h2]
    simp only [List.mem_cons, List.not_mem_nil, or_false]
    exact Or.comm,
   (sortedNodeIds_spec "<edge source=\"A\" target=\"B\">").2.2.2.1
     "<edge source=\"B\" target=\"A\">"
     (by
       intro x
       have h1 : extract_node_ids_from_xgmml "<edge source=\"B\" target=\"A\">" = ["B", "A"] := by
         decide
       have h2 : extract_node_ids_from_xgmml "<edge source=\"A\" target=\"B\">" = ["A", "B"] := by
         decide
       rw [h1, h2]
       simp only [List.mem_cons, List.not_mem_nil, or_false]
       exact Or.comm)⟩

/-! ## Claim C5: machinery for the edge-document characterization -/

theorem takeWhile_append_all {p : Char → Bool} {l m : List Char}
    (hl : ∀ c ∈ l, p c = true) :
    (l ++ m).takeWhile p = l ++ m.takeWhile p := by
  induction l with
  | nil => rfl
  | cons c l' ih =>
    rw [List.cons_append, List.takeWhile_cons, if_pos (hl c (List.mem_cons_self c l')),
      ih (fun d hd => hl d (List.mem_cons_of_mem c hd)), List.cons_append]

theorem dropWhile_append_all {p : Char → Bool} {l m : List Char}
    (hl : ∀ c ∈ l, p c = true) :
    (l ++ m).dropWhile p = m.dropWhile p := by
  induction l with
  | nil => rfl
  | cons c l' ih =>
    rw [List.cons_append, List.dropWhile_cons, if_pos (hl c (List.mem_cons_self c l'))]
    exact ih (fun d hd => hl d (List.mem_cons_of_mem c hd))

theorem tryCapture_safe_prefix {v Q : List Char} (hv : ∀ c ∈ v, c ≠ '"') :
    tryCapture (v ++ '"' :: Q) = some (v, Q) := by
  have hvp : ∀ c ∈ v, (fun c => decide (c ≠ '"')) c = true := by
    intro c hc
    simpa using hv c hc
  unfold tryCapture
  rw [dropWhile_append_all hvp, List.dropWhile_cons, if_neg (by simp),
    takeWhile_append_all hvp, List.takeWhile_cons, if_neg (by simp), List.append_nil]

theorem not_isPrefixOf_of_head_ne {x y : Char} {xs ys : List Char} (h : x ≠ y) :
    ¬ ((x :: xs).isPrefixOf (y :: ys) = true) := by
  simp [List.isPrefixOf, h]

theorem not_isPrefixOf_of_second_ne {x₁ x₂ y₁ y₂ : Char} {xs ys : List Char} (h : x₂ ≠ y₂) :
    ¬ ((x₁ :: x₂ :: xs).isPrefixOf (y₁ :: y₂ :: ys) = true) := by
  simp [List.isPrefixOf, h]

theorem isPrefixOf_self_append (l m : List Char) : l.isPrefixOf (l ++ m) = true :=
  List.isPrefixOf_iff_prefix.mpr (List.prefix_append l m)

theorem noPre_mono {lit cs : List Char} {b b' : Nat} (h : NoPre lit cs b) (hb : b' ≤ b) :
    NoPre lit cs b' :=
  fun j hj => h j (le_trans hj hb)

theorem noPre_cons {lit cs : List Char} {c : Char} {b : Nat}
    (h0 : ¬ (lit.isPrefixOf (c :: cs) = true)) (h : NoPre lit cs b) :
    NoPre lit (c :: cs) (b + 1) := by
  intro j hj
  cases j with
  | zero => exact h0
  | succ j =>
    rw [List.drop_succ_cons]
    exact h j (by omega)

theorem noPre_quote_gt {lit : List Char} {x : Char} {xs : List Char}
    (hlit : lit = x :: xs) (hx1 : x ≠ '"') (hx2 : x ≠ '>') (rest : List Char) :
    NoPre lit ('"' :: '>' :: rest) 1 := by
  intro j hj
  subst hlit
  interval_cases j
  · exact not_isPrefixOf_of_head_ne hx1
  · rw [List.drop_succ_cons, List.drop_zero]
    exact not_isPrefixOf_of_head_ne hx2

theorem noPre_block {lit u V : List Char} {b : Nat}
    (hlen : lit.length = 8)
    (hq : '"' ∈ lit)
    (heq : '=' ∈ lit.take 7)
    (hd : ∀ d < 7, 1 ≤ d → (lit.drop d).headD '"' ≠ '"')
    (hu : ∀ c ∈ u, c ≠ '"' ∧ c ≠ '=')
    (hV : ∃ V', V = '"' :: V')
    (h : NoPre lit V b) :
    NoPre lit (u ++ V) (u.length + b) := by
  intro j hj
  by_cases hju : u.length ≤ j
  · have hdrop : (u ++ V).drop j = V.drop (j - u.length) := by
      conv_lhs => rw [show j = u.length + (j - u.length) by omega]
      rw [List.drop_append]
    rw [hdrop]
    exact h (j - u.length) (by omega)
  · push_neg at hju
    intro hpre
    rw [List.isPrefixOf_iff_prefix] at hpre
    have hdrop : (u ++ V).drop j = u.drop j ++ V :=
      List.drop_append_of_le_length (le_of_lt hju)
    rw [hdrop] at hpre
    obtain ⟨t, ht⟩ := hpre
    have hwlen : (u.drop j).length = u.length - j := List.length_drop j u
    have hwne : u.drop j ≠ [] := by
      intro hc
      rw [hc] at hwlen
      simp at hwlen
      omega
    have hwsub : ∀ c ∈ u.drop j, c ≠ '"' ∧ c ≠ '=' :=
      fun c hc => hu c (List.drop_subset j u hc)
    rcases List.append_eq_append_iff.mp ht with ⟨a, ha1, ha2⟩ | ⟨c', hc1, hc2⟩
    · -- the whole literal fits inside `u`; its quote lands among safe characters
      have : '"' ∈ u.drop j := ha1 ▸ List.mem_append_left a hq
      exact (hwsub '"' this).1 rfl
    · cases c' with
      | nil =>
        rw [List.append_nil] at hc1
        have : '"' ∈ u.drop j := hc1 ▸ hq
        exact (hwsub '"' this).1 rfl
      | cons x xs =>
        have hdle : (u.drop j).length + (x :: xs).length = 8 := by
          rw [← hlen, hc1, List.length_append]
        have hd7 : (u.drop j).length ≤ 7 := by
          simp only [List.length_cons] at hdle
          omega
        have hd1 : 1 ≤ (u.drop j).length := by
          cases hne : u.drop j with
          | nil => exact absurd hne hwne
          | cons _ _ => simp [hne]
        by_cases hd7' : (u.drop j).length = 7
        · -- the last literal character before the quote is `=`, impossible in `u`
          have htake : lit.take 7 = u.drop j := by
            rw [hc1, ← hd7']
            exact List.take_left (u.drop j) (x :: xs)
          have : '=' ∈ u.drop j := htake ▸ heq
          exact (hwsub '=' this).2 rfl
        · -- the literal resumes in `V`, whose first character is the closing quote
          have hdrop' : lit.drop (u.drop j).length = x :: xs := by
            rw [hc1]
            exact List.drop_left (u.drop j) (x :: xs)
          have hx : x ≠ '"' := by
            have hh := hd (u.drop j).length (by omega) hd1
            rw [hdrop'] at hh
            simpa using hh
          obtain ⟨V', hV'⟩ := hV
          rw [hV'] at hc2
          have : x = '"' := by
            have := congrArg (fun l => l.headD ' ') hc2.symm
            simpa using this
          exact hx this

theorem noPre_prepend_no_head {lit : List Char} {x : Char} {xs : List Char}
    (hlit : lit = x :: xs) (l : List Char) (hl : ∀ c ∈ l, c ≠ x) {cs : List Char} {b : Nat}
    (h : NoPre lit cs b) : NoPre lit (l ++ cs) (l.length + b) := by
  induction l with
  | nil => simpa using h
  | cons c l' ih =>
    have h0 : ¬ (lit.isPrefixOf (c :: (l' ++ cs)) = true) := by
      rw [hlit]
      exact not_isPrefixOf_of_head_ne (Ne.symm (hl c (List.mem_cons_self c l')))
    have hstep := noPre_cons h0 (ih (fun d hd => hl d (List.mem_cons_of_mem c hd)))
    rw [List.cons_append]
    exact noPre_mono hstep (by simp; omega)

theorem noPre_argetQuote {X : List Char} {b : Nat} (h : NoPre litTarget X b) :
    NoPre litTarget ('a' :: 'r' :: 'g' :: 'e' :: 't' :: '=' :: '"' :: X) (b + 7) := by
  have s1 : NoPre litTarget ('"' :: X) (b + 1) :=
    noPre_cons (not_isPrefixOf_of_head_ne (by decide)) h
  have s2 : NoPre litTarget ('=' :: '"' :: X) (b + 2) :=
    noPre_cons (not_isPrefixOf_of_head_ne (by decide)) s1
  have s3 : NoPre litTarget ('t' :: '=' :: '"' :: X) (b + 3) :=
    noPre_cons (not_isPrefixOf_of_second_ne (by decide)) s2
  have s4 : NoPre litTarget ('e' :: 't' :: '=' :: '"' :: X) (b + 4) :=
    noPre_cons (not_isPrefixOf_of_head_ne (by decide)) s3
  have s5 : NoPre litTarget ('g' :: 'e' :: 't' :: '=' :: '"' :: X) (b + 5) :=
    noPre_cons (not_isPrefixOf_of_head_ne (by decide)) s4
  have s6 : NoPre litTarget ('r' :: 'g' :: 'e' :: 't' :: '=' :: '"' :: X) (b + 6) :=
    noPre_cons (not_isPrefixOf_of_head_ne (by decide)) s5
  exact noPre_cons (not_isPrefixOf_of_head_ne (by decide)) s6

theorem safeChar_spec {c : Char} (h : safeChar c = true) :
    c ≠ '"' ∧ c ≠ '<' ∧ c ≠ '>' ∧ c ≠ '=' := by
  unfold safeChar at h
  simp only [Bool.and_eq_true, decide_eq_true_eq] at h
  exact ⟨h.1.1.1, h.1.1.2, h.1.2, h.2⟩

theorem noPre_sf_src {src tgt rest : List Char}
    (hsrc : ∀ c ∈ src, safeChar c = true) (htgt : ∀ c ∈ tgt, safeChar c = true) :
    NoPre litSource
      ('o' :: 'u' :: 'r' :: 'c' :: 'e' :: '=' :: '"' ::
        (src ++ ('"' :: ' ' ::
          ('t' :: 'a' :: 'r' :: 'g' :: 'e' :: 't' :: '=' :: '"' ::
            (tgt ++ ('"' :: '>' :: rest))))))
      (18 + src.length + tgt.length) := by
  have husrc : ∀ c ∈ src, c ≠ '"' ∧ c ≠ '=' :=
    fun c hc => ⟨(safeChar_spec (hsrc c hc)).1, (safeChar_spec (hsrc c hc)).2.2.2⟩
  have hutgt : ∀ c ∈ tgt, c ≠ '"' ∧ c ≠ '=' :=
    fun c hc => ⟨(safeChar_spec (htgt c hc)).1, (safeChar_spec (htgt c hc)).2.2.2⟩
  have base : NoPre litSource ('"' :: '>' :: rest) 1 :=
    noPre_quote_gt rfl (by decide) (by decide) rest
  have b2 : NoPre litSource (tgt ++ ('"' :: '>' :: rest)) (tgt.length + 1) :=
    noPre_block (by decide) (by decide) (by decide) (by decide) hutgt ⟨_, rfl⟩ base
  have p1 := noPre_prepend_no_head (show litSource = 's' :: ['o', 'u', 'r', 'c', 'e', '=', '"']
      from rfl) ['t', 'a', 'r', 'g', 'e', 't', '=', '"'] (by decide) b2
  have p2 := noPre_prepend_no_head (show litSource = 's' :: ['o', 'u', 'r', 'c', 'e', '=', '"']
      from rfl) ['"', ' '] (by decide) p1
  have b3 := noPre_block (by decide) (by decide) (by decide) (by decide) husrc ⟨_, rfl⟩ p2
  have p3 := noPre_prepend_no_head (show litSource = 's' :: ['o', 'u', 'r', 'c', 'e', '=', '"']
      from rfl) ['o', 'u', 'r', 'c', 'e', '=', '"'] (by decide) b3
  exact noPre_mono p3 (by simp; omega)

theorem noPre_sf_tgt {tgt rest : List Char}
    (htgt : ∀ c ∈ tgt, safeChar c = true) :
    NoPre litTarget
      ('a' :: 'r' :: 'g' :: 'e' :: 't' :: '=' :: '"' :: (tgt ++ ('"' :: '>' :: rest)))
      (8 + tgt.length) := by
  have hutgt : ∀ c ∈ tgt, c ≠ '"' ∧ c ≠ '=' :=
    fun c hc => ⟨(safeChar_spec (htgt c hc)).1, (safeChar_spec (htgt c hc)).2.2.2⟩
  have base : NoPre litTarget ('"' :: '>' :: rest) 1 :=
    noPre_quote_gt rfl (by decide) (by decide) rest
  have b2 : NoPre litTarget (tgt ++ ('"' :: '>' :: rest)) (tgt.length + 1) :=
    noPre_block (by decide) (by decide) (by decide) (by decide) hutgt ⟨_, rfl⟩ base
  have p1 := noPre_argetQuote b2
  exact noPre_mono p1 (by omega)

theorem noPre_tf_tgt {src tgt rest : List Char}
    (hsrc : ∀ c ∈ src, safeChar c = true) (htgt : ∀ c ∈ tgt, safeChar c = true) :
    NoPre litTarget
      ('a' :: 'r' :: 'g' :: 'e' :: 't' :: '=' :: '"' ::
        (tgt ++ ('"' :: ' ' ::
          ('s' :: 'o' :: 'u' :: 'r' :: 'c' :: 'e' :: '=' :: '"' ::
            (src ++ ('"' :: '>' :: rest))))))
      (18 + src.length + tgt.length) := by
  have husrc : ∀ c ∈ src, c ≠ '"' ∧ c ≠ '=' :=
    fun c hc => ⟨(safeChar_spec (hsrc c hc)).1, (safeChar_spec (hsrc c hc)).2.2.2⟩
  have hutgt : ∀ c ∈ tgt, c ≠ '"' ∧ c ≠ '=' :=
    fun c hc => ⟨(safeChar_spec (htgt c hc)).1, (safeChar_spec (htgt c hc)).2.2.2⟩
  have base : NoPre litTarget ('"' :: '>' :: rest) 1 :=
    noPre_quote_gt rfl (by decide) (by decide) rest
  have b2 : NoPre litTarget (src ++ ('"' :: '>' :: rest)) (src.length + 1) :=
    noPre_block (by decide) (by decide) (by decide) (by decide) husrc ⟨_, rfl⟩ base
  have p1 := noPre_prepend_no_head (show litTarget = 't' :: ['a', 'r', 'g', 'e', 't', '=', '"']
      from rfl) ['s', 'o', 'u', 'r', 'c', 'e', '=', '"'] (by decide) b2
  have p2 := noPre_prepend_no_head (show litTarget = 't' :: ['a', 'r', 'g', 'e', 't', '=', '"']
      from rfl) ['"', ' '] (by decide) p1
  have b3 := noPre_block (by decide) (by decide) (by decide) (by decide) hutgt ⟨_, rfl⟩ p2
  have p3 := noPre_argetQuote b3
  exact noPre_mono p3 (by simp; omega)

theorem noPre_tf_src {src rest : List Char}
    (hsrc : ∀ c ∈ src, safeChar c = true) :
    NoPre litSource
      ('o' :: 'u' :: 'r' :: 'c' :: 'e' :: '=' :: '"' :: (src ++ ('"' :: '>' :: rest)))
      (8 + src.length) := by
  have husrc : ∀ c ∈ src, c ≠ '"' ∧ c ≠ '=' :=
    fun c hc => ⟨(safeChar_spec (hsrc c hc)).1, (safeChar_spec (hsrc c hc)).2.2.2⟩
  have base : NoPre litSource ('"' :: '>' :: rest) 1 :=
    noPre_quote_gt rfl (by decide) (by decide) rest
  have b2 : NoPre litSource (src ++ ('"' :: '>' :: rest)) (src.length + 1) :=
    noPre_block (by decide) (by decide) (by decide) (by decide) husrc ⟨_, rfl⟩ base
  have p1 := noPre_prepend_no_head (show litSource = 's' :: ['o', 'u', 'r', 'c', 'e', '=', '"']
      from rfl) ['o', 'u', 'r', 'c', 'e', '=', '"'] (by decide) b2
  exact noPre_mono p1 (by simp; omega)

theorem attemptAt_none_of_not_prefix {lit cs : List Char} {j : Nat}
    (h : ¬ (lit.isPrefixOf (cs.drop j) = true)) : attemptAt lit cs j = none := by
  unfold attemptAt
  rw [if_neg h]

theorem matchInner_succ (lit cs : List Char) (k : Nat) :
    matchInner lit cs (k + 1) =
      match attemptAt lit cs (k + 1) with
      | some r => some r
      | none => matchInner lit cs k := rfl

theorem matchInner_eq_of_none_above (lit cs : List Char) (a : Nat) :
    ∀ k, a ≤ k → (∀ j, a < j → j ≤ k → attemptAt lit cs j = none) →
      matchInner lit cs k = matchInner lit cs a := by
  intro k
  induction k with
  | zero =>
    intro ha _
    have h0 : a = 0 := Nat.le_zero.mp ha
    rw [h0]
  | succ k ih =>
    intro ha hnone
    by_cases hak : a = k + 1
    · rw [hak]
    · have ha' : a ≤ k := by omega
      rw [matchInner_succ, hnone (k + 1) (by omega) (Nat.le_refl _)]
      exact ih ha' (fun j hj1 hj2 => hnone j hj1 (by omega))

theorem matchEdgeAttr_sf_src (src tgt rest : List Char)
    (hsrc : ∀ c ∈ src, safeChar c = true) (htgt : ∀ c ∈ tgt, safeChar c = true) :
    matchEdgeAttr litSource (renderEdgeL src tgt true ++ rest) =
      some (src, ' ' :: (litTarget ++ (tgt ++ ('"' :: '>' :: rest)))) := by
  have hne_gt_src : ∀ c ∈ src, (fun c => decide (c ≠ '>')) c = true := by
    intro c hc
    simpa using (safeChar_spec (hsrc c hc)).2.2.1
  have hne_gt_tgt : ∀ c ∈ tgt, (fun c => decide (c ≠ '>')) c = true := by
    intro c hc
    simpa using (safeChar_spec (htgt c hc)).2.2.1
  have hcs : renderEdgeL src tgt true ++ rest =
      litEdge ++ (' ' :: (litSource ++ (src ++
        ('"' :: ' ' :: (litTarget ++ (tgt ++ ('"' :: '>' :: rest))))))) := by
    simp [renderEdgeL, List.append_assoc]
  rw [hcs]
  unfold matchEdgeAttr
  rw [if_pos (isPrefixOf_self_append litEdge _)]
  have hdrop5 :
      (litEdge ++ (' ' :: (litSource ++ (src ++
        ('"' :: ' ' :: (litTarget ++ (tgt ++ ('"' :: '>' :: rest)))))))).drop 5 =
      ' ' :: (litSource ++ (src ++
        ('"' :: ' ' :: (litTarget ++ (tgt ++ ('"' :: '>' :: rest)))))) := rfl
  rw [hdrop5]
  have htw : ((' ' :: (litSource ++ (src ++
      ('"' :: ' ' :: (litTarget ++ (tgt ++ ('"' :: '>' :: rest))))))).takeWhile
        (fun c => decide (c ≠ '>'))) =
      ' ' :: (litSource ++ (src ++
        ('"' :: ' ' :: (litTarget ++ (tgt ++ ['"']))))) := by
    rw [List.takeWhile_cons, if_pos (by decide)]
    rw [show litSource ++ (src ++ ('"' :: ' ' :: (litTarget ++ (tgt ++ ('"' :: '>' :: rest))))) =
        litSource ++ (src ++ ('"' :: ' ' :: (litTarget ++ (tgt ++ ('"' :: '>' :: rest)))))
      from rfl]
    rw [takeWhile_append_all (by decide)]
    rw [takeWhile_append_all hne_gt_src]
    rw [show ('"' :: ' ' :: (litTarget ++ (tgt ++ ('"' :: '>' :: rest)))).takeWhile
        (fun c => decide (c ≠ '>')) =
        '"' :: ' ' :: ((litTarget ++ (tgt ++ ('"' :: '>' :: rest))).takeWhile
          (fun c => decide (c ≠ '>'))) from by
      rw [List.takeWhile_cons, if_pos (by decide), List.takeWhile_cons, if_pos (by decide)]]
    rw [takeWhile_append_all (by decide)]
    rw [takeWhile_append_all hne_gt_tgt]
    rw [List.takeWhile_cons, if_pos (by decide), List.takeWhile_cons, if_neg (by decide)]
  rw [htw]
  have hn : (' ' :: (litSource ++ (src ++
      ('"' :: ' ' :: (litTarget ++ (tgt ++ ['"'])))))).length =
      20 + src.length + tgt.length := by
    simp [litSource, litTarget]
    omega
  rw [hn]
  have hnone : ∀ j, 1 < j → j ≤ 20 + src.length + tgt.length →
      attemptAt litSource (' ' :: (litSource ++ (src ++
        ('"' :: ' ' :: (litTarget ++ (tgt ++ ('"' :: '>' :: rest))))))) j = none := by
    intro j hj1 hj2
    apply attemptAt_none_of_not_prefix
    have heq : (' ' :: (litSource ++ (src ++
        ('"' :: ' ' :: (litTarget ++ (tgt ++ ('"' :: '>' :: rest))))))).drop j =
        ((' ' :: (litSource ++ (src ++
          ('"' :: ' ' :: (litTarget ++ (tgt ++ ('"' :: '>' :: rest))))))).drop 2).drop (j - 2) := by
      rw [List.drop_drop]
      congr 1
      omega
    rw [heq]
    exact noPre_sf_src hsrc htgt (j - 2) (by omega)
  rw [matchInner_eq_of_none_above litSource _ 1 (20 + src.length + tgt.length) (by omega) hnone]
  have hatt : attemptAt litSource (' ' :: (litSource ++ (src ++
      ('"' :: ' ' :: (litTarget ++ (tgt ++ ('"' :: '>' :: rest))))))) 1 =
      some (src, ' ' :: (litTarget ++ (tgt ++ ('"' :: '>' :: rest)))) := by
    unfold attemptAt
    have hd1 : (' ' :: (litSource ++ (src ++
        ('"' :: ' ' :: (litTarget ++ (tgt ++ ('"' :: '>' :: rest))))))).drop 1 =
        litSource ++ (src ++ ('"' :: ' ' :: (litTarget ++ (tgt ++ ('"' :: '>' :: rest))))) := rfl
    rw [hd1, if_pos (isPrefixOf_self_append litSource _)]
    show tryCapture (src ++ ('"' :: (' ' :: (litTarget ++ (tgt ++ ('"' :: '>' :: rest)))))) = _
    exact tryCapture_safe_prefix (fun c hc => (safeChar_spec (hsrc c hc)).1)
  rw [show (1 : Nat) = 0 + 1 from rfl, matchInner_succ, hatt]

theorem takeWhile_tf (src tgt rest : List Char)
    (hsrc : ∀ c ∈ src, safeChar c = true) (htgt : ∀ c ∈ tgt, safeChar c = true) :
    ((' ' :: (litTarget ++ (tgt ++
      ('"' :: ' ' :: (litSource ++ (src ++ ('"' :: '>' :: rest))))))).takeWhile
        (fun c => decide (c ≠ '>'))) =
      ' ' :: (litTarget ++ (tgt ++
        ('"' :: ' ' :: (litSource ++ (src ++ ['"']))))) := by
  have hne_gt_src : ∀ c ∈ src, (fun c => decide (c ≠ '>')) c = true := by
    intro c hc
    simpa using (safeChar_spec (hsrc c hc)).2.2.1
  have hne_gt_tgt : ∀ c ∈ tgt, (fun c => decide (c ≠ '>')) c = true := by
    intro c hc
    simpa using (safeChar_spec (htgt c hc)).2.2.1
  rw [List.takeWhile_cons, if_pos (by decide)]
  rw [takeWhile_append_all (by decide)]
  rw [takeWhile_append_all hne_gt_tgt]
  rw [show ('"' :: ' ' :: (litSource ++ (src ++ ('"' :: '>' :: rest)))).takeWhile
      (fun c => decide (c ≠ '>')) =
      '"' :: ' ' :: ((litSource ++ (src ++ ('"' :: '>' :: rest))).takeWhile
        (fun c => decide (c ≠ '>'))) from by
    rw [List.takeWhile_cons, if_pos (by decide), List.takeWhile_cons, if_pos (by decide)]]
  rw [takeWhile_append_all (by decide)]
  rw [takeWhile_append_all hne_gt_src]
  rw [List.takeWhile_cons, if_pos (by decide), List.takeWhile_cons, if_neg (by decide)]

theorem matchEdgeAttr_sf_tgt (src tgt rest : List Char)
    (hsrc : ∀ c ∈ src, safeChar c = true) (htgt : ∀ c ∈ tgt, safeChar c = true) :
    matchEdgeAttr litTarget (renderEdgeL src tgt true ++ rest) =
      some (tgt, '>' :: rest) := by
  have hne_gt_src : ∀ c ∈ src, (fun c => decide (c ≠ '>')) c = true := by
    intro c hc
    simpa using (safeChar_spec (hsrc c hc)).2.2.1
  have hne_gt_tgt : ∀ c ∈ tgt, (fun c => decide (c ≠ '>')) c = true := by
    intro c hc
    simpa using (safeChar_spec (htgt c hc)).2.2.1
  have hcs : renderEdgeL src tgt true ++ rest =
      litEdge ++ (' ' :: (litSource ++ (src ++
        ('"' :: ' ' :: (litTarget ++ (tgt ++ ('"' :: '>' :: rest))))))) := by
    simp [renderEdgeL, List.append_assoc]
  rw [hcs]
  unfold matchEdgeAttr
  rw [if_pos (isPrefixOf_self_append litEdge _)]
  have hdrop5 :
      (litEdge ++ (' ' :: (litSource ++ (src ++
        ('"' :: ' ' :: (litTarget ++ (tgt ++ ('"' :: '>' :: rest)))))))).drop 5 =
      ' ' :: (litSource ++ (src ++
        ('"' :: ' ' :: (litTarget ++ (tgt ++ ('"' :: '>' :: rest)))))) := rfl
  rw [hdrop5]
  have htw : ((' ' :: (litSource ++ (src ++
      ('"' :: ' ' :: (litTarget ++ (tgt ++ ('"' :: '>' :: rest))))))).takeWhile
        (fun c => decide (c ≠ '>'))) =
      ' ' :: (litSource ++ (src ++
        ('"' :: ' ' :: (litTarget ++ (tgt ++ ['"']))))) := by
    rw [List.takeWhile_cons, if_pos (by decide)]
    rw [takeWhile_append_all (by decide)]
    rw [takeWhile_append_all hne_gt_src]
    rw [show ('"' :: ' ' :: (litTarget ++ (tgt ++ ('"' :: '>' :: rest)))).takeWhile
        (fun c => decide (c ≠ '>')) =
        '"' :: ' ' :: ((litTarget ++ (tgt ++ ('"' :: '>' :: rest))).takeWhile
          (fun c => decide (c ≠ '>'))) from by
      rw [List.takeWhile_cons, if_pos (by decide), List.takeWhile_cons, if_pos (by decide)]]
    rw [takeWhile_append_all (by decide)]
    rw [takeWhile_append_all hne_gt_tgt]
    rw [List.takeWhile_cons, if_pos (by decide), List.takeWhile_cons, if_neg (by decide)]
  rw [htw]
  have hn : (' ' :: (litSource ++ (src ++
      ('"' :: ' ' :: (litTarget ++ (tgt ++ ['"'])))))).length =
      20 + src.length + tgt.length := by
    simp [litSource, litTarget]
    omega
  rw [hn]
  have hdropP : (' ' :: (litSource ++ (src ++
      ('"' :: ' ' :: (litTarget ++ (tgt ++ ('"' :: '>' :: rest))))))).drop (11 + src.length) =
      litTarget ++ (tgt ++ ('"' :: '>' :: rest)) := by
    have hP : ' ' :: (litSource ++ (src ++
        ('"' :: ' ' :: (litTarget ++ (tgt ++ ('"' :: '>' :: rest)))))) =
        (' ' :: (litSource ++ (src ++ ['"', ' ']))) ++
          (litTarget ++ (tgt ++ ('"' :: '>' :: rest))) := by
      simp [List.append_assoc]
    have hlenP : (' ' :: (litSource ++ (src ++ ['"', ' ']))).length = 11 + src.length := by
      simp [litSource]
      omega
    rw [hP, ← hlenP, List.drop_left]
  have hnone : ∀ j, 11 + src.length < j → j ≤ 20 + src.length + tgt.length →
      attemptAt litTarget (' ' :: (litSource ++ (src ++
        ('"' :: ' ' :: (litTarget ++ (tgt ++ ('"' :: '>' :: rest))))))) j = none := by
    intro j hj1 hj2
    apply attemptAt_none_of_not_prefix
    have heq : (' ' :: (litSource ++ (src ++
        ('"' :: ' ' :: (litTarget ++ (tgt ++ ('"' :: '>' :: rest))))))).drop j =
        ((litTarget ++ (tgt ++ ('"' :: '>' :: rest))).drop 1).drop (j - (12 + src.length)) := by
      conv_rhs => rw [← hdropP]
      rw [List.drop_drop, List.drop_drop]
      congr 1
      omega
    rw [heq]
    exact noPre_sf_tgt htgt (j - (12 + src.length)) (by omega)
  rw [matchInner_eq_of_none_above litTarget _ (11 + src.length)
    (20 + src.length + tgt.length) (by omega) hnone]
  have hatt : attemptAt litTarget (' ' :: (litSource ++ (src ++
      ('"' :: ' ' :: (litTarget ++ (tgt ++ ('"' :: '>' :: rest))))))) (11 + src.length) =
      some (tgt, '>' :: rest) := by
    unfold attemptAt
    rw [hdropP, if_pos (isPrefixOf_self_append litTarget _)]
    show tryCapture (tgt ++ ('"' :: ('>' :: rest))) = _
    exact tryCapture_safe_prefix (fun c hc => (safeChar_spec (htgt c hc)).1)
  rw [show 11 + src.length = (10 + src.length) + 1 from by omega] at hatt ⊢
  rw [matchInner_succ, hatt]

theorem matchEdgeAttr_tf_tgt (src tgt rest : List Char)
    (hsrc : ∀ c ∈ src, safeChar c = true) (htgt : ∀ c ∈ tgt, safeChar c = true) :
    matchEdgeAttr litTarget (renderEdgeL src tgt false ++ rest) =
      some (tgt, ' ' :: (litSource ++ (src ++ ('"' :: '>' :: rest)))) := by
  have hcs : renderEdgeL src tgt false ++ rest =
      litEdge ++ (' ' :: (litTarget ++ (tgt ++
        ('"' :: ' ' :: (litSource ++ (src ++ ('"' :: '>' :: rest))))))) := by
    simp [renderEdgeL, List.append_assoc]
  rw [hcs]
  unfold matchEdgeAttr
  rw [if_pos (isPrefixOf_self_append litEdge _)]
  have hdrop5 :
      (litEdge ++ (' ' :: (litTarget ++ (tgt ++
        ('"' :: ' ' :: (litSource ++ (src ++ ('"' :: '>' :: rest)))))))).drop 5 =
      ' ' :: (litTarget ++ (tgt ++
        ('"' :: ' ' :: (litSource ++ (src ++ ('"' :: '>' :: rest)))))) := rfl
  rw [hdrop5, takeWhile_tf src tgt rest hsrc htgt]
  have hn : (' ' :: (litTarget ++ (tgt ++
      ('"' :: ' ' :: (litSource ++ (src ++ ['"'])))))).length =
      20 + src.length + tgt.length := by
    simp [litSource, litTarget]
    omega
  rw [hn]
  have hnone : ∀ j, 1 < j → j ≤ 20 + src.length + tgt.length →
      attemptAt litTarget (' ' :: (litTarget ++ (tgt ++
        ('"' :: ' ' :: (litSource ++ (src ++ ('"' :: '>' :: rest))))))) j = none := by
    intro j hj1 hj2
    apply attemptAt_none_of_not_prefix
    have heq : (' ' :: (litTarget ++ (tgt ++
        ('"' :: ' ' :: (litSource ++ (src ++ ('"' :: '>' :: rest))))))).drop j =
        ((' ' :: (litTarget ++ (tgt ++
          ('"' :: ' ' :: (litSource ++ (src ++ ('"' :: '>' :: rest))))))).drop 2).drop (j - 2) := by
      rw [List.drop_drop]
      congr 1
      omega
    rw [heq]
    exact noPre_tf_tgt hsrc htgt (j - 2) (by omega)
  rw [matchInner_eq_of_none_above litTarget _ 1 (20 + src.length + tgt.length) (by omega) hnone]
  have hatt : attemptAt litTarget (' ' :: (litTarget ++ (tgt ++
      ('"' :: ' ' :: (litSource ++ (src ++ ('"' :: '>' :: rest))))))) 1 =
      some (tgt, ' ' :: (litSource ++ (src ++ ('"' :: '>' :: rest)))) := by
    unfold attemptAt
    have hd1 : (' ' :: (litTarget ++ (tgt ++
        ('"' :: ' ' :: (litSource ++ (src ++ ('"' :: '>' :: rest))))))).drop 1 =
        litTarget ++ (tgt ++ ('"' :: ' ' :: (litSource ++ (src ++ ('"' :: '>' :: rest))))) := rfl
    rw [hd1, if_pos (isPrefixOf_self_append litTarget _)]
    show tryCapture (tgt ++ ('"' :: (' ' :: (litSource ++ (src ++ ('"' :: '>' :: rest)))))) = _
    exact tryCapture_safe_prefix (fun c hc => (safeChar_spec (htgt c hc)).1)
  rw [show (1 : Nat) = 0 + 1 from rfl, matchInner_succ, hatt]

theorem matchEdgeAttr_tf_src (src tgt rest : List Char)
    (hsrc : ∀ c ∈ src, safeChar c = true) (htgt : ∀ c ∈ tgt, safeChar c = true) :
    matchEdgeAttr litSource (renderEdgeL src tgt false ++ rest) =
      some (src, '>' :: rest) := by
  have hcs : renderEdgeL src tgt false ++ rest =
      litEdge ++ (' ' :: (litTarget ++ (tgt ++
        ('"' :: ' ' :: (litSource ++ (src ++ ('"' :: '>' :: rest))))))) := by
    simp [renderEdgeL, List.append_assoc]
  rw [hcs]
  unfold matchEdgeAttr
  rw [if_pos (isPrefixOf_self_append litEdge _)]
  have hdrop5 :
      (litEdge ++ (' ' :: (litTarget ++ (tgt ++
        ('"' :: ' ' :: (litSource ++ (src ++ ('"' :: '>' :: rest)))))))).drop 5 =
      ' ' :: (litTarget ++ (tgt ++
        ('"' :: ' ' :: (litSource ++ (src ++ ('"' :: '>' :: rest)))))) := rfl
  rw [hdrop5, takeWhile_tf src tgt rest hsrc htgt]
  have hn : (' ' :: (litTarget ++ (tgt ++
      ('"' :: ' ' :: (litSource ++ (src ++ ['"'])))))).length =
      20 + src.length + tgt.length := by
    simp [litSource, litTarget]
    omega
  rw [hn]
  have hdropP : (' ' :: (litTarget ++ (tgt ++
      ('"' :: ' ' :: (litSource ++ (src ++ ('"' :: '>' :: rest))))))).drop (11 + tgt.length) =
      litSource ++ (src ++ ('"' :: '>' :: rest)) := by
    have hP : ' ' :: (litTarget ++ (tgt ++
        ('"' :: ' ' :: (litSource ++ (src ++ ('"' :: '>' :: rest)))))) =
        (' ' :: (litTarget ++ (tgt ++ ['"', ' ']))) ++
          (litSource ++ (src ++ ('"' :: '>' :: rest))) := by
      simp [List.append_assoc]
    have hlenP : (' ' :: (litTarget ++ (tgt ++ ['"', ' ']))).length = 11 + tgt.length := by
      simp [litTarget]
      omega
    rw [hP, ← hlenP, List.drop_left]
  have hnone : ∀ j, 11 + tgt.length < j → j ≤ 20 + src.length + tgt.length →
      attemptAt litSource (' ' :: (litTarget ++ (tgt ++
        ('"' :: ' ' :: (litSource ++ (src ++ ('"' :: '>' :: rest))))))) j = none := by
    intro j hj1 hj2
    apply attemptAt_none_of_not_prefix
    have heq : (' ' :: (litTarget ++ (tgt ++
        ('"' :: ' ' :: (litSource ++ (src ++ ('"' :: '>' :: rest))))))).drop j =
        ((litSource ++ (src ++ ('"' :: '>' :: rest))).drop 1).drop (j - (12 + tgt.length)) := by
      conv_rhs => rw [← hdropP]
      rw [List.drop_drop, List.drop_drop]
      congr 1
      omega
    rw [heq]
    exact noPre_tf_src hsrc (j - (12 + tgt.length)) (by omega)
  rw [matchInner_eq_of_none_above litSource _ (11 + tgt.length)
    (20 + src.length + tgt.length) (by omega) hnone]
  have hatt : attemptAt litSource (' ' :: (litTarget ++ (tgt ++
      ('"' :: ' ' :: (litSource ++ (src ++ ('"' :: '>' :: rest))))))) (11 + tgt.length) =
      some (src, '>' :: rest) := by
    unfold attemptAt
    rw [hdropP, if_pos (isPrefixOf_self_append litSource _)]
    show tryCapture (src ++ ('"' :: ('>' :: rest))) = _
    exact tryCapture_safe_prefix (fun c hc => (safeChar_spec (hsrc c hc)).1)
  rw [show 11 + tgt.length = (10 + tgt.length) + 1 from by omega] at hatt ⊢
  rw [matchInner_succ, hatt]

theorem reFindAll_renderEdge_source (src tgt : List Char) (flag : Bool) (rest : List Char)
    (hsrc : ∀ c ∈ src, safeChar c = true) (htgt : ∀ c ∈ tgt, safeChar c = true) :
    reFindAll litSource (renderEdgeL src tgt flag ++ rest) =
      src :: reFindAll litSource rest := by
  cases flag with
  | false =>
    rw [reFindAll_match (matchEdgeAttr_tf_src src tgt rest hsrc htgt)]
    rw [reFindAll_skip (matchEdgeAttr_none_of_ne (by decide))]
  | true =>
    rw [reFindAll_match (matchEdgeAttr_sf_src src tgt rest hsrc htgt)]
    have hform : ' ' :: (litTarget ++ (tgt ++ ('"' :: '>' :: rest))) =
        ((' ' :: litTarget) ++ (tgt ++ ['"', '>'])) ++ rest := by
      simp [List.append_assoc]
    rw [hform, reFindAll_append_of_no_lt]
    intro c hc
    rcases List.mem_append.mp hc with h1 | h1
    · exact (by decide : ∀ c ∈ (' ' :: litTarget), c ≠ '<') c h1
    · rcases List.mem_append.mp h1 with h2 | h2
      · exact (safeChar_spec (htgt c h2)).2.1
      · exact (by decide : ∀ c ∈ ['"', '>'], c ≠ '<') c h2

theorem reFindAll_renderEdge_target (src tgt : List Char) (flag : Bool) (rest : List Char)
    (hsrc : ∀ c ∈ src, safeChar c = true) (htgt : ∀ c ∈ tgt, safeChar c = true) :
    reFindAll litTarget (renderEdgeL src tgt flag ++ rest) =
      tgt :: reFindAll litTarget rest := by
  cases flag with
  | true =>
    rw [reFindAll_match (matchEdgeAttr_sf_tgt src tgt rest hsrc htgt)]
    rw [reFindAll_skip (matchEdgeAttr_none_of_ne (by decide))]
  | false =>
    rw [reFindAll_match (matchEdgeAttr_tf_tgt src tgt rest hsrc htgt)]
    have hform : ' ' :: (litSource ++ (src ++ ('"' :: '>' :: rest))) =
        ((' ' :: litSource) ++ (src ++ ['"', '>'])) ++ rest := by
      simp [List.append_assoc]
    rw [hform, reFindAll_append_of_no_lt]
    intro c hc
    rcases List.mem_append.mp hc with h1 | h1
    · exact (by decide : ∀ c ∈ (' ' :: litSource), c ≠ '<') c h1
    · rcases List.mem_append.mp h1 with h2 | h2
      · exact (safeChar_spec (hsrc c h2)).2.1
      · exact (by decide : ∀ c ∈ ['"', '>'], c ≠ '<') c h2

theorem reFindAll_edges_source :
    ∀ (es : List (List Char × List Char × Bool)),
      (∀ e ∈ es, (∀ c ∈ e.1, safeChar c = true) ∧ (∀ c ∈ e.2.1, safeChar c = true)) →
      reFindAll litSource ((es.map (fun e => renderEdgeL e.1 e.2.1 e.2.2 ++ ['\n'])).flatten) =
        es.map (fun e => e.1) := by
  intro es
  induction es with
  | nil => intro _; rfl
  | cons e es' ih =>
    intro hsafe
    rw [List.map_cons, List.flatten_cons]
    have hform : (renderEdgeL e.1 e.2.1 e.2.2 ++ ['\n']) ++
        (es'.map (fun e => renderEdgeL e.1 e.2.1 e.2.2 ++ ['\n'])).flatten =
        renderEdgeL e.1 e.2.1 e.2.2 ++
          ('\n' :: (es'.map (fun e => renderEdgeL e.1 e.2.1 e.2.2 ++ ['\n'])).flatten) := by
      simp
    rw [hform]
    rw [reFindAll_renderEdge_source e.1 e.2.1 e.2.2 _
      (hsafe e (List.mem_cons_self e es')).1 (hsafe e (List.mem_cons_self e es')).2]
    rw [reFindAll_skip (matchEdgeAttr_none_of_ne (by decide))]
    rw [ih (fun d hd => hsafe d (List.mem_cons_of_mem e hd)), List.map_cons]

theorem reFindAll_edges_target :
    ∀ (es : List (List Char × List Char × Bool)),
      (∀ e ∈ es, (∀ c ∈ e.1, safeChar c = true) ∧ (∀ c ∈ e.2.1, safeChar c = true)) →
      reFindAll litTarget ((es.map (fun e => renderEdgeL e.1 e.2.1 e.2.2 ++ ['\n'])).flatten) =
        es.map (fun e => e.2.1) := by
  intro es
  induction es with
  | nil => intro _; rfl
  | cons e es' ih =>
    intro hsafe
    rw [List.map_cons, List.flatten_cons]
    have hform : (renderEdgeL e.1 e.2.1 e.2.2 ++ ['\n']) ++
        (es'.map (fun e => renderEdgeL e.1 e.2.1 e.2.2 ++ ['\n'])).flatten =
        renderEdgeL e.1 e.2.1 e.2.2 ++
          ('\n' :: (es'.map (fun e => renderEdgeL e.1 e.2.1 e.2.2 ++ ['\n'])).flatten) := by
      simp
    rw [hform]
    rw [reFindAll_renderEdge_target e.1 e.2.1 e.2.2 _
      (hsafe e (List.mem_cons_self e es')).1 (hsafe e (List.mem_cons_self e es')).2]
    rw [reFindAll_skip (matchEdgeAttr_none_of_ne (by decide))]
    rw [ih (fun d hd => hsafe d (List.mem_cons_of_mem e hd)), List.map_cons]

theorem reFindAll_header_skip (lit : List Char) :
    ∀ (hdr cs : List Char),
      (∀ j, litEdge.isPrefixOf (hdr.drop j) = false) →
      (∀ x xs, cs = x :: xs → ¬ (x = 'e' ∨ x = 'd' ∨ x = 'g')) →
      reFindAll lit (hdr ++ cs) = reFindAll lit cs := by
  intro hdr
  induction hdr with
  | nil => intro cs _ _; rfl
  | cons c hdr' ih =>
    intro cs hh hcs
    have hnm : matchEdgeAttr lit (c :: (hdr' ++ cs)) = none := by
      unfold matchEdgeAttr
      rw [if_neg]
      intro hpre
      rw [List.isPrefixOf_iff_prefix] at hpre
      obtain ⟨t, ht⟩ := hpre
      have ht' : litEdge ++ t = (c :: hdr') ++ cs := by
        rw [List.cons_append]
        exact ht
      rcases List.append_eq_append_iff.mp ht' with ⟨a, ha1, ha2⟩ | ⟨c', hc1, hc2⟩
      · have hbadpre : litEdge.isPrefixOf ((c :: hdr').drop 0) = true := by
          rw [List.drop_zero, List.isPrefixOf_iff_prefix]
          exact ⟨a, ha1.symm⟩
        rw [hh 0] at hbadpre
        exact absurd hbadpre (by simp)
      · cases c' with
        | nil =>
          rw [List.append_nil] at hc1
          have hbadpre : litEdge.isPrefixOf ((c :: hdr').drop 0) = true := by
            rw [List.drop_zero, List.isPrefixOf_iff_prefix]
            exact ⟨[], by rw [List.append_nil, hc1]⟩
          rw [hh 0] at hbadpre
          exact absurd hbadpre (by simp)
        | cons x xs =>
          have hxcs : cs = x :: (xs ++ t) := by
            rw [hc2]
            rfl
          have hbad := hcs x (xs ++ t) hxcs
          have hdx : litEdge.drop (c :: hdr').length = x :: xs := by
            rw [hc1]
            exact List.drop_left (c :: hdr') (x :: xs)
          have hd3 : hdr'.length ≤ 3 := by
            have := congrArg List.length hc1
            simp only [List.length_append, List.length_cons] at this
            have h5 : litEdge.length = 5 := by decide
            omega
          rw [List.length_cons] at hdx
          have hcases : hdr'.length = 0 ∨ hdr'.length = 1 ∨ hdr'.length = 2 ∨
              hdr'.length = 3 := by omega
          rcases hcases with h0 | h0 | h0 | h0 <;>
            rw [h0] at hdx <;>
            simp only [litEdge, List.drop_succ_cons, List.drop_zero,
              List.cons.injEq] at hdx <;>
            exact hbad (by
              rcases hdx with ⟨hx, _⟩
              first
              | exact Or.inl hx.symm
              | exact Or.inr (Or.inl hx.symm)
              | exact Or.inr (Or.inr hx.symm))
    rw [List.cons_append, reFindAll_skip hnm]
    refine ih cs (fun j => ?_) hcs
    have := hh (j + 1)
    rw [List.drop_succ_cons] at this
    exact this

theorem edgeDoc_data (header : String) (es : List (String × String × Bool)) :
    (edgeDoc header es).data =
      header.data ++
        ((es.map (fun e => (e.1.data, e.2.1.data, e.2.2))).map
          (fun e => renderEdgeL e.1 e.2.1 e.2.2 ++ ['\n'])).flatten := by
  unfold edgeDoc
  rw [String.data_append]
  congr 1
  unfold String.join
  rw [string_join_data]
  show ([] : List Char) ++ _ = _
  rw [List.nil_append, List.map_map, List.map_map]
  congr 1

/-- Counterexample to claim C5 as stated: `<edges source="A">` contains no
edge element (the only element is named `edges`), yet the extractor
collects `A`, because the patterns anchor on the character prefix
`<edge`, not on the element name. -/
theorem extract_nonEdge_counterexample :
    extract_node_ids_from_xgmml "<edges source=\"A\">" = ["A"] := by decide

/-- Amended claim C5: the extractor collects exactly the `source="…"` and
`target="…"` attribute values of tags beginning with the characters
`<edge` — which includes elements such as `<edges …>` whose name merely
starts with `edge`, but no other elements — tolerates the two attributes
appearing in either order within a tag, and returns their deduplicated
union as a set.  Stated over documents consisting of an arbitrary
header (free of `<edge`) followed by edge tags in either attribute
order, for attribute values free of the pattern-significant characters
`"`, `<`, `>`, `=`. -/
theorem extract_edgeDoc_spec (header : String) (es : List (String × String × Bool))
    (hh : ∀ j < header.data.length, litEdge.isPrefixOf (header.data.drop j) = false)
    (hsafe : ∀ e ∈ es, (∀ c ∈ e.1.data, safeChar c = true) ∧
      (∀ c ∈ e.2.1.data, safeChar c = true)) :
    extract_node_ids_from_xgmml (edgeDoc header es) =
      (es.map (fun e => e.1) ++ es.map (fun e => e.2.1)).dedup ∧
    (extract_node_ids_from_xgmml (edgeDoc header es)).Nodup ∧
    (∀ x, x ∈ extract_node_ids_from_xgmml (edgeDoc header es) ↔
      ∃ e ∈ es, x = e.1 ∨ x = e.2.1) := by
  have hsafe' : ∀ e ∈ es.map (fun e => (e.1.data, e.2.1.data, e.2.2)),
      (∀ c ∈ e.1, safeChar c = true) ∧ (∀ c ∈ e.2.1, safeChar c = true) := by
    intro e he
    obtain ⟨e₀, he₀, rfl⟩ := List.mem_map.mp he
    exact hsafe e₀ he₀
  have hh' : ∀ j, litEdge.isPrefixOf (header.data.drop j) = false := by
    intro j
    by_cases hj : j < header.data.length
    · exact hh j hj
    · rw [List.drop_eq_nil_of_le (by omega)]
      rfl
  have hcs' : ∀ x xs,
      ((es.map (fun e => (e.1.data, e.2.1.data, e.2.2))).map
        (fun e => renderEdgeL e.1 e.2.1 e.2.2 ++ ['\n'])).flatten = x :: xs →
      ¬ (x = 'e' ∨ x = 'd' ∨ x = 'g') := by
    intro x xs hx
    cases es with
    | nil => simp at hx
    | cons e es' =>
      rw [List.map_cons, List.map_cons, List.flatten_cons] at hx
      cases hflag : e.2.2 <;>
        rw [hflag] at hx <;>
        unfold renderEdgeL at hx <;>
        simp only [Bool.false_eq_true, if_false, if_true, litEdge, List.cons_append,
          List.append_assoc, List.cons.injEq] at hx <;>
        · rcases hx with ⟨hx1, _⟩
          intro hor
          rw [← hx1] at hor
          rcases hor with h | h | h <;> exact absurd h (by decide)
  have hextract : extract_node_ids_from_xgmml (edgeDoc header es) =
      (es.map (fun e => e.1) ++ es.map (fun e => e.2.1)).dedup := by
    show ((reFindAll litSource (edgeDoc header es).data).map String.mk ++
        (reFindAll litTarget (edgeDoc header es).data).map String.mk).dedup = _
    rw [edgeDoc_data header es]
    rw [reFindAll_header_skip litSource header.data _ hh' hcs']
    rw [reFindAll_header_skip litTarget header.data _ hh' hcs']
    rw [reFindAll_edges_source _ hsafe']
    rw [reFindAll_edges_target _ hsafe']
    rw [List.map_map, List.map_map, List.map_map, List.map_map]
    rfl
  refine ⟨hextract, hextract ▸ List.nodup_dedup _, fun x => ?_⟩
  rw [hextract, List.mem_dedup, List.mem_append]
  constructor
  · intro h
    rcases h with h | h <;> obtain ⟨e, he, rfl⟩ := List.mem_map.mp h
    · exact ⟨e, he, Or.inl rfl⟩
    · exact ⟨e, he, Or.inr rfl⟩
  · rintro ⟨e, he, rfl | rfl⟩
    · exact Or.inl (List.mem_map.mpr ⟨e, he, rfl⟩)
    · exact Or.inr (List.mem_map.mpr ⟨e, he, rfl⟩)

/-- Witness for the amended claim C5, covering the specification's
deduplication example: edges referencing A, B, A, C (attributes in both
orders) yield the set containing exactly A, B, C. -/
theorem extract_edgeDoc_spec_witness :
    (∀ j < ("<graph>\n").data.length,
      litEdge.isPrefixOf (("<graph>\n").data.drop j) = false) ∧
    extract_node_ids_from_xgmml
      (edgeDoc "<graph>\n" [("A", "B", true), ("A", "C", false)]) = ["A", "B", "C"] :=
  ⟨by decide,
   by
     have h := (extract_edgeDoc_spec "<graph>\n" [("A", "B", true), ("A", "C", false)]
       (by decide) (by decide)).1
     rw [h]
     decide⟩
